import Mathlib

/-!
Verification of the chain-event filtering and subscription engine of the
venus node (`app/submodule/eth/eth_event_api.go`), via a shallow embedding
of its pure core into Lean.  Go byte strings are modelled as `List Nat`
(one `Nat` per byte), `abi.ChainEpoch` (an `int64`) as `Int`, and fallible
Go calls as `Option`/`Except`.  External collaborators (the historical
event index, the chain store, JSON marshalling, address conversion) are
modelled as explicit oracle arguments, so that the sequential control flow
of the Go code becomes a pure function of its inputs and oracles.
-/

namespace VenusEth

/-! ## Event entries and `ethLogFromEvent` (log assembly) -/

/-- `types.EventEntry`: flags, key (a Go string, modelled as bytes), codec
and value. -/
structure EventEntry where
  flags : Nat
  key : List Nat
  codec : Nat
  value : List Nat
deriving DecidableEq, Repr

/-- `cid.Raw` multicodec. -/
def rawCodec : Nat := 0x55

/-- Go string comparison (byte-wise lexicographic; a proper prefix of a
string compares below it). -/
def bytesLe : List Nat → List Nat → Bool
  | [], _ => true
  | _ :: _, [] => false
  | a :: as, b :: bs => if a < b then true else if b < a then false else bytesLe as bs

/-- The bytes of `"t1"`. -/
def keyT1 : List Nat := [116, 49]

/-- The bytes of `"t4"`. -/
def keyT4 : List Nat := [116, 52]

/-- The bytes of `"d"`. -/
def keyD : List Nat := [100]

/-- The source's test `len(entry.Key) == 2 && "t1" <= entry.Key && entry.Key <= "t4"`. -/
def isTopicKey (key : List Nat) : Bool :=
  decide (key.length = 2) && bytesLe keyT1 key && bytesLe key keyT4

/-- The source's `idx := int(entry.Key[1] - '1')`.  Inside the topic branch
`'1' <= key[1] <= '4'`, so the byte subtraction never borrows and natural
subtraction is exact. -/
def topicSlot (key : List Nat) : Nat :=
  key.getD 1 0 - 49

/-- A zero-valued `types.EthHash` (32 zero bytes). -/
def emptyEthHash : List Nat := List.replicate 32 0

/-- Go `copy(dst, src)`: copies `min |dst| |src|` bytes of `src` over the
front of `dst`. -/
def copyBytes (dst src : List Nat) : List Nat :=
  src.take (min dst.length src.length) ++ dst.drop (min dst.length src.length)

/-- The loop state of `ethLogFromEvent`: the `topicsFound` array, its
count, the data field and its found flag, and the topics slice. -/
structure LogAccum where
  topicsFound : Nat → Bool
  topicsFoundCount : Nat
  dataFound : Bool
  data : List Nat
  topics : List (List Nat)

/-- Initial loop state of `ethLogFromEvent`. -/
def initLogAccum : LogAccum :=
  { topicsFound := fun _ => false
    topicsFoundCount := 0
    dataFound := false
    data := []
    topics := [] }

/-- The source's `for len(topics) <= idx { topics = append(topics, EthHash{}) }`:
pad the topics slice with zero hashes up to length `idx + 1`. -/
def extendTopics (topics : List (List Nat)) (idx : Nat) : List (List Nat) :=
  topics ++ List.replicate (idx + 1 - topics.length) emptyEthHash

/-- The padding loop followed by `copy(topics[idx][:], entry.Value)`. -/
def placeTopic (topics : List (List Nat)) (idx : Nat) (value : List Nat) : List (List Nat) :=
  (extendTopics topics idx).set idx
    (copyBytes ((extendTopics topics idx).getD idx []) value)

/-- One iteration of the entry loop of `ethLogFromEvent`; `none` is the
`return nil, nil, false` early exit. -/
def ethLogStep (s : LogAccum) (entry : EventEntry) : Option LogAccum :=
  if entry.codec ≠ rawCodec then none
  else if isTopicKey entry.key then
    if entry.value.length ≠ 32 then none
    else if s.topicsFound (topicSlot entry.key) then none
    else some { s with
      topicsFound := fun j => if j = topicSlot entry.key then true else s.topicsFound j
      topicsFoundCount := s.topicsFoundCount + 1
      topics := placeTopic s.topics (topicSlot entry.key) entry.value }
  else if entry.key = keyD then
    if s.dataFound then none else some { s with dataFound := true, data := entry.value }
  else some s

/-- The entry loop of `ethLogFromEvent` followed by the final
`len(topics) != topicsFoundCount` gap check. -/
def ethLogGo : LogAccum → List EventEntry → Option (List Nat × List (List Nat))
  | s, [] => if s.topics.length ≠ s.topicsFoundCount then none else some (s.data, s.topics)
  | s, e :: rest =>
    match ethLogStep s e with
    | none => none
    | some s1 => ethLogGo s1 rest

/-- `ethLogFromEvent` (eth_event_api.go:756): decodes an event's entry list
into the log's data and topics; `none` models `ok = false`. -/
def ethLogFromEvent (entries : List EventEntry) : Option (List Nat × List (List Nat)) :=
  ethLogGo initLogAccum entries

/-- An entry whose key is one of `"t1"`..`"t4"`. -/
def isTopicEntry (e : EventEntry) : Bool := isTopicKey e.key

/-- The topic slot claimed by a topic entry. -/
def entrySlot (e : EventEntry) : Nat := topicSlot e.key

/-- Number of topic entries in an entry list. -/
def topicCount (es : List EventEntry) : Nat := (es.filter isTopicEntry).length

/-- Slot `i` is claimed by some topic entry of the list. -/
def slotFilled (es : List EventEntry) (i : Nat) : Prop :=
  ∃ e ∈ es, isTopicEntry e = true ∧ entrySlot e = i

instance (es : List EventEntry) (i : Nat) : Decidable (slotFilled es i) := by
  unfold slotFilled; infer_instance

/-- Some entry has a codec other than `cid.Raw`. -/
def hasNonRawEntry (es : List EventEntry) : Prop := ∃ e ∈ es, e.codec ≠ rawCodec

/-- Some topic entry's value is not exactly 32 bytes. -/
def hasBadTopicSize (es : List EventEntry) : Prop :=
  ∃ e ∈ es, isTopicEntry e = true ∧ e.value.length ≠ 32

/-- Two topic entries claim the same slot. -/
def hasDuplicateTopic (es : List EventEntry) : Prop :=
  ∃ i, 2 ≤ (es.filter (fun e => isTopicEntry e && entrySlot e == i)).length

/-- The list holds a second `"d"` entry. -/
def hasDuplicateData (es : List EventEntry) : Prop :=
  2 ≤ (es.filter (fun e => e.key == keyD)).length

/-- The claimed topic slots have a gap: some claimed slot has an unclaimed
slot below it. -/
def hasTopicGap (es : List EventEntry) : Prop :=
  ∃ e ∈ es, isTopicEntry e = true ∧ ∃ k < entrySlot e, ¬ slotFilled es k

/-- Any of the rejection conditions of `ethLogFromEvent`. -/
def badEntries (es : List EventEntry) : Prop :=
  hasNonRawEntry es ∨ hasBadTopicSize es ∨ hasDuplicateTopic es ∨
    hasDuplicateData es ∨ hasTopicGap es

/-- One step of the length evolution of the `topics` slice: a topic entry
with slot `i` extends it to at least `i + 1`. -/
def topicsLenF (m : Nat) (e : EventEntry) : Nat :=
  if isTopicEntry e then max m (entrySlot e + 1) else m

/-- Length of the `topics` slice after the whole entry list. -/
def topicsLen (es : List EventEntry) : Nat := es.foldl topicsLenF 0

/-- The set of claimed topic slots (all slots are below 4). -/
def slotSet (es : List EventEntry) : Finset Nat :=
  (Finset.range 4).filter (fun i => slotFilled es i)

/-- Invariant tying the loop state of `ethLogFromEvent` to the prefix `p`
of entries already processed without an early exit. -/
structure GoInv (p : List EventEntry) (s : LogAccum) : Prop where
  clean : ∀ e ∈ p, e.codec = rawCodec ∧ (isTopicEntry e = true → e.value.length = 32)
  nodup : ¬ hasDuplicateTopic p
  nodupData : ¬ hasDuplicateData p
  count : s.topicsFoundCount = topicCount p
  found : ∀ i, s.topicsFound i = true ↔ slotFilled p i
  dataF : s.dataFound = true ↔ ∃ e ∈ p, e.key = keyD
  tlen : s.topics.length = topicsLen p
  tval : ∀ e ∈ p, isTopicEntry e = true → s.topics.getD (entrySlot e) [] = e.value
  tlen32 : ∀ i, i < s.topics.length → (s.topics.getD i []).length = 32

/-! ## `parseBlockRange` (height-range resolution) -/

deriving instance DecidableEq for Except

/-- The error sites of `parseBlockRange`, one per `fmt.Errorf` call. -/
inductive BlockRangeError where
  | fromNotHex
  | fromInvalidEpoch
  | toNotHex
  | toInvalidEpoch
  | toFarInFuture
  | fromFarInPast
  | invertedRange
  | rangeTooLarge
deriving DecidableEq, Repr

/-- Value of one hexadecimal digit character. -/
def hexDigitVal (c : Char) : Option Nat :=
  if '0' ≤ c ∧ c ≤ '9' then some (c.toNat - '0'.toNat)
  else if 'a' ≤ c ∧ c ≤ 'f' then some (c.toNat - 'a'.toNat + 10)
  else if 'A' ≤ c ∧ c ≤ 'F' then some (c.toNat - 'A'.toNat + 10)
  else none

/-- Accumulated value of a hex-digit string (`none` on a non-digit). -/
def hexValue (cs : List Char) : Option Nat :=
  cs.foldl (fun acc c => acc.bind fun a => (hexDigitVal c).map fun d => a * 16 + d)
    (some 0)

/-- Modelled from the spec: `types.EthUint64FromHex` (venus-shared, not
under src/) parses a `"0x"`-prefixed hexadecimal string into a 64-bit
unsigned integer, failing on malformed or overflowing input. -/
def ethUint64FromHex (s : String) : Option Nat :=
  if s.toList.drop 2 = [] then none
  else
    match hexValue (s.toList.drop 2) with
    | none => none
    | some n => if n < 2 ^ 64 then some n else none

/-- Go `strings.HasPrefix(s, "0x")`. -/
def hasPrefix0x (s : String) : Bool :=
  s.toList.take 2 == ['0', 'x']

/-- The `abi.ChainEpoch(epoch)` cast: `int64` wrap-around of a `uint64`. -/
def int64OfUint64 (n : Nat) : Int :=
  if n < 2 ^ 63 then (n : Int) else (n : Int) - 2 ^ 64

/-- The `fromBlock` resolution step of `parseBlockRange`
(eth_event_api.go:347-360). -/
def parseBlockRangeFrom (heaviest : Int) (fromBlock : Option String) :
    Except BlockRangeError Int :=
  match fromBlock with
  | none => .ok heaviest
  | some s =>
    if s = "latest" ∨ s.length = 0 then .ok heaviest
    else if s = "earliest" then .ok 0
    else if ¬ hasPrefix0x s then .error .fromNotHex
    else
      match ethUint64FromHex s with
      | none => .error .fromInvalidEpoch
      | some epoch => .ok (int64OfUint64 epoch)

/-- The `toBlock` resolution step of `parseBlockRange`
(eth_event_api.go:362-376). -/
def parseBlockRangeTo (toBlock : Option String) : Except BlockRangeError Int :=
  match toBlock with
  | none => .ok (-1)
  | some s =>
    if s = "latest" ∨ s.length = 0 then .ok (-1)
    else if s = "earliest" then .ok 0
    else if ¬ hasPrefix0x s then .error .toNotHex
    else
      match ethUint64FromHex s with
      | none => .error .toInvalidEpoch
      | some epoch => .ok (int64OfUint64 epoch)

/-- `parseBlockRange` (eth_event_api.go:346-397): resolve both bounds,
then validate the span against `maxRange` and check for inversion. -/
def parseBlockRange (heaviest : Int) (fromBlock toBlock : Option String)
    (maxRange : Int) : Except BlockRangeError (Int × Int) :=
  match parseBlockRangeFrom heaviest fromBlock with
  | .error e => .error e
  | .ok minHeight =>
    match parseBlockRangeTo toBlock with
    | .error e => .error e
    | .ok maxHeight =>
      if minHeight = -1 ∧ maxHeight > 0 then
        if maxHeight - heaviest > maxRange then .error .toFarInFuture
        else .ok (minHeight, maxHeight)
      else if minHeight ≥ 0 ∧ maxHeight = -1 then
        if heaviest - minHeight > maxRange then .error .fromFarInPast
        else .ok (minHeight, maxHeight)
      else if minHeight ≥ 0 ∧ maxHeight ≥ 0 then
        if minHeight > maxHeight then .error .invertedRange
        else if maxHeight - minHeight > maxRange then .error .rangeTooLarge
        else .ok (minHeight, maxHeight)
      else .ok (minHeight, maxHeight)

/-! ## `waitForHeightProcessed`

The concurrency of the wait is modelled by an oracle trace: `check k` is
the result of the `k`-th `IsHeightPast` query issued by this call (so an
index advance between the first query and the subscription shows up as
`check 0 = ok false, check 1 = ok true`), and the fuel argument is the
number of update notifications that arrive before the 90-second timeout
fires. -/

/-- `eventReadTimeout = 90 * time.Second`, in seconds. -/
def eventReadTimeoutSeconds : Nat := 90

/-- Outcome of `waitForHeightProcessed`: the height-in-future error, an
`IsHeightPast` query error, success, or the timeout error. -/
inductive WaitOutcome where
  | futureErr
  | checkErr
  | done
  | timedOut
deriving DecidableEq, Repr

/-- Result of a wait: outcome, whether `SubscribeUpdates` was called, how
many `IsHeightPast` queries ran, and how many notifications were consumed. -/
structure WaitResult where
  outcome : WaitOutcome
  subscribed : Bool
  checksUsed : Nat
  notificationsUsed : Nat
deriving DecidableEq, Repr

/-- The `for { select ... }` loop (eth_event_api.go:287-298): each
iteration consumes one notification and re-queries; fuel exhaustion is the
`ctx.Done()` timeout. -/
def waitLoop (check : Nat → Except Unit Bool) (callIdx used : Nat) :
    Nat → WaitResult
  | 0 => ⟨.timedOut, true, callIdx, used⟩
  | fuel + 1 =>
    match check callIdx with
    | .error _ => ⟨.checkErr, true, callIdx + 1, used + 1⟩
    | .ok true => ⟨.done, true, callIdx + 1, used + 1⟩
    | .ok false => waitLoop check (callIdx + 1) (used + 1) fuel

/-- `waitForHeightProcessed` (eth_event_api.go:260-299): future check, a
first `IsHeightPast`, the subscription, a second `IsHeightPast`, then the
notification loop. -/
def waitForHeightProcessed (headHeight height : Int)
    (check : Nat → Except Unit Bool) (notifications : Nat) : WaitResult :=
  if height > headHeight then ⟨.futureErr, false, 0, 0⟩
  else
    match check 0 with
    | .error _ => ⟨.checkErr, false, 1, 0⟩
    | .ok true => ⟨.done, false, 1, 0⟩
    | .ok false =>
      match check 1 with
      | .error _ => ⟨.checkErr, true, 2, 0⟩
      | .ok true => ⟨.done, true, 2, 0⟩
      | .ok false => waitLoop check 2 0 notifications

/-! ## Log assembly from collected events -/

/-- `filter.CollectedEvent` — modelled from the spec §3 (the struct lives
in `pkg/events/filter`, outside src/): ordered entry list, resolved
emitter address, event index, reverted flag, height, owning tipset key,
message index and message CID.  Opaque chain values (addresses, CIDs,
keys, hashes) are modelled as `Nat` identifiers. -/
structure CollectedEvent where
  entries : List EventEntry
  emitterAddr : Nat
  eventIdx : Nat
  reverted : Bool
  height : Nat
  tipSetKey : Nat
  msgIdx : Nat
  msgCid : Nat
deriving DecidableEq, Repr

/-- The `types.EthLog` fields set by `ethFilterLogsFromEvents`. -/
structure EthLog where
  address : Nat
  data : List Nat
  topics : List (List Nat)
  removed : Bool
  logIndex : Nat
  transactionIndex : Nat
  transactionHash : Nat
  blockHash : Nat
  blockNumber : Nat
deriving DecidableEq, Repr

/-- The `types.EmptyEthHash` sentinel returned by `ethTxHashFromMessageCid`
for garbage-collected messages. -/
def emptyEthTxHash : Nat := 0

/-- Oracles for the fallible helpers called by `ethFilterLogsFromEvents`:
address conversion, transaction-hash lookup, tipset-key CID and CID
hashing. -/
structure LogEnv where
  ethAddressFromFilecoinAddress : Nat → Except Unit Nat
  ethTxHashFromMessageCid : Nat → Except Unit Nat
  tipSetKeyCid : Nat → Except Unit Nat
  ethHashFromCid : Nat → Except Unit Nat

/-- `ethFilterLogsFromEvents` (eth_event_api.go:820-866): per event, decode
the entries (a failed decode skips the event), convert the emitter
address, look up the transaction hash (an `EmptyEthHash` skips the event),
compute the block hash; any helper error aborts the whole call. -/
def ethFilterLogsFromEvents (env : LogEnv) :
    List CollectedEvent → Except Unit (List EthLog)
  | [] => .ok []
  | ev :: rest =>
    match ethLogFromEvent ev.entries with
    | none => ethFilterLogsFromEvents env rest
    | some (data, topics) =>
      match env.ethAddressFromFilecoinAddress ev.emitterAddr with
      | .error e => .error e
      | .ok addr =>
        match env.ethTxHashFromMessageCid ev.msgCid with
        | .error e => .error e
        | .ok txh =>
          if txh = emptyEthTxHash then ethFilterLogsFromEvents env rest
          else
            match env.tipSetKeyCid ev.tipSetKey with
            | .error e => .error e
            | .ok c =>
              match env.ethHashFromCid c with
              | .error e => .error e
              | .ok bh =>
                match ethFilterLogsFromEvents env rest with
                | .error e => .error e
                | .ok logs =>
                  .ok ({ address := addr, data := data, topics := topics,
                         removed := ev.reverted, logIndex := ev.eventIdx,
                         transactionIndex := ev.msgIdx, transactionHash := txh,
                         blockHash := bh, blockNumber := ev.height } :: logs)

/-- `ethFilterResultFromEvents` (eth_event_api.go:868-880): the same logs
wrapped as an `EthFilterResult` results list. -/
def ethFilterResultFromEvents (env : LogEnv) (evs : List CollectedEvent) :
    Except Unit (List EthLog) :=
  match ethFilterLogsFromEvents env evs with
  | .error e => .error e
  | .ok logs => .ok logs

/-! ## Filter store, managers and subscriptions (`ethEventAPI` state) -/

/-- The three filter variants dispatched on by `uninstallFilter`. -/
inductive FilterKind where
  | event
  | tipset
  | mempool
deriving DecidableEq, Repr

/-- State of the filter/subscription machinery of `ethEventAPI`:
identifier allocators (standing for the random UUIDs), the Filter Store
with its cap, the three managers' installed filters, the subscription
registry, and each subscription's attached filters. -/
structure EvState where
  nextFilterId : Nat
  nextSubId : Nat
  maxFilters : Nat
  storeFilters : List (Nat × FilterKind)
  eventFilters : List Nat
  tipsetFilters : List Nat
  mempoolFilters : List Nat
  subs : List Nat
  subAttached : Nat → List (Nat × FilterKind)

/-- Modelled from the spec §4.1: `FilterStore.Add` fails when the store is
full (`MaxFilters`) or the identifier collides, else registers the
filter. -/
def storeAdd (st : EvState) (id : Nat) (kind : FilterKind) : Except Unit EvState :=
  if st.maxFilters ≤ st.storeFilters.length ∨ id ∈ st.storeFilters.map Prod.fst then
    .error ()
  else .ok { st with storeFilters := st.storeFilters ++ [(id, kind)] }

/-- Modelled from the spec §4.1: `FilterStore.Get` returns the filter, or
`none` for the NotFound error. -/
def storeGet (st : EvState) (id : Nat) : Option FilterKind :=
  (st.storeFilters.find? (fun f => f.1 == id)).map Prod.snd

/-- Modelled from the spec §4.1: `FilterStore.Remove` deletes the filter. -/
def storeRemove (st : EvState) (id : Nat) : EvState :=
  { st with storeFilters := st.storeFilters.filter (fun f => f.1 != id) }

/-- Modelled from the spec §4.2: a manager `Install` allocates a fresh
identifier and registers the filter with its own manager. -/
def managerInstall (st : EvState) (kind : FilterKind) : EvState × Nat :=
  match kind with
  | .event =>
    ({ st with
        nextFilterId := st.nextFilterId + 1
        eventFilters := st.eventFilters ++ [st.nextFilterId] }, st.nextFilterId)
  | .tipset =>
    ({ st with
        nextFilterId := st.nextFilterId + 1
        tipsetFilters := st.tipsetFilters ++ [st.nextFilterId] }, st.nextFilterId)
  | .mempool =>
    ({ st with
        nextFilterId := st.nextFilterId + 1
        mempoolFilters := st.mempoolFilters ++ [st.nextFilterId] }, st.nextFilterId)

/-- Modelled from the spec §4.2: a manager `Remove` unregisters the
filter. -/
def managerRemove (st : EvState) (kind : FilterKind) (id : Nat) : EvState :=
  match kind with
  | .event => { st with eventFilters := st.eventFilters.filter (fun i => i != id) }
  | .tipset => { st with tipsetFilters := st.tipsetFilters.filter (fun i => i != id) }
  | .mempool => { st with mempoolFilters := st.mempoolFilters.filter (fun i => i != id) }

/-- `ethEventAPI.uninstallFilter` (eth_event_api.go:544): dispatch on the
filter kind to the owning manager's `Remove`, then remove from the Filter
Store. -/
def uninstallFilter (st : EvState) (id : Nat) (kind : FilterKind) : EvState :=
  storeRemove (managerRemove st kind id) id

/-- `ethEventAPI.EthNewFilter` (eth_event_api.go:455): install the parsed
spec with the event filter manager (`specOk` models the parse steps of
`installEthFilterSpec`, `installOk` the manager `Install` call), then add
to the Filter Store, rolling the manager registration back if the store
add fails. -/
def ethNewFilter (st : EvState) (specOk installOk : Bool) :
    EvState × Except Unit Nat :=
  if !(specOk && installOk) then (st, .error ())
  else
    match managerInstall st .event with
    | (st1, fid) =>
      match storeAdd st1 fid .event with
      | .error _ => (managerRemove st1 .event fid, .error ())
      | .ok st2 => (st2, .ok fid)

/-- `ethEventAPI.EthUninstallFilter` (eth_event_api.go:524): a missing
identifier reports `(false, nil)`; otherwise the filter is uninstalled and
`(true, nil)` returned. -/
def EthUninstallFilter (st : EvState) (id : Nat) : EvState × (Bool × Option Unit) :=
  match storeGet st id with
  | none => (st, (false, none))
  | some kind => (uninstallFilter st id kind, (true, none))

/-- `EthSubscriptionManager.StartSubscription` registration effect
(eth_event_api.go:924-959): allocate an identifier and register the
subscription, with no filters attached yet. -/
def startSubscription (st : EvState) : EvState × Nat :=
  ({ st with
      nextSubId := st.nextSubId + 1
      subs := st.subs ++ [st.nextSubId]
      subAttached := fun j => if j = st.nextSubId then [] else st.subAttached j },
    st.nextSubId)

/-- `ethSubscription.addFilter` (eth_event_api.go:1000): bind one more
filter to the subscription. -/
def addFilter (st : EvState) (sid fid : Nat) (kind : FilterKind) : EvState :=
  { st with subAttached := fun j =>
      if j = sid then st.subAttached j ++ [(fid, kind)] else st.subAttached j }

/-- `EthSubscriptionManager.StopSubscription` (eth_event_api.go:961) with
`ethSubscription.stop` (eth_event_api.go:1124): unknown identifiers error;
otherwise the subscription is deregistered and every attached filter
uninstalled. -/
def StopSubscription (st : EvState) (sid : Nat) : EvState × Except Unit Unit :=
  if sid ∈ st.subs then
    ((st.subAttached sid).foldl (fun s fk => uninstallFilter s fk.1 fk.2)
        { st with subs := st.subs.filter (fun j => j != sid) },
      .ok ())
  else (st, .error ())

/-- `ethEventAPI.EthUnsubscribe` (eth_event_api.go:652): a failing
`StopSubscription` reports `(false, nil)`, success `(true, nil)`. -/
def EthUnsubscribe (st : EvState) (sid : Nat) : EvState × (Bool × Option Unit) :=
  match StopSubscription st sid with
  | (st1, .error _) => (st1, (false, none))
  | (st1, .ok _) => (st1, (true, none))

/-- The error paths of `EthSubscribe`. -/
inductive SubscribeErr where
  | topicParse
  | invalidAddress
  | installFailed
  | unsupportedType
deriving DecidableEq, Repr

/-- `ethEventAPI.EthSubscribe` (eth_event_api.go:574-650): register the
subscription, then dispatch on the event type, installing one filter and
attaching it.  `topicsOk` models `parseEthTopics`, `addrsOk` the address
conversions, `installOk` the manager `Install` call.  Topic-parse and
install failures clean up through `EthUnsubscribe`; an address-conversion
failure (line 622) and an unsupported event type (line 646) return their
error directly. -/
def ethSubscribe (st : EvState) (eventType : String)
    (topicsOk addrsOk installOk : Bool) : EvState × Except SubscribeErr Nat :=
  match startSubscription st with
  | (st1, sid) =>
    if eventType = "newHeads" then
      if installOk then
        match managerInstall st1 .tipset with
        | (st2, fid) => (addFilter st2 sid fid .tipset, .ok sid)
      else ((EthUnsubscribe st1 sid).1, .error .installFailed)
    else if eventType = "logs" then
      if !topicsOk then ((EthUnsubscribe st1 sid).1, .error .topicParse)
      else if !addrsOk then (st1, .error .invalidAddress)
      else if installOk then
        match managerInstall st1 .event with
        | (st2, fid) => (addFilter st2 sid fid .event, .ok sid)
      else ((EthUnsubscribe st1 sid).1, .error .installFailed)
    else if eventType = "newPendingTransactions" then
      if installOk then
        match managerInstall st1 .mempool with
        | (st2, fid) => (addFilter st2 sid fid .mempool, .ok sid)
      else ((EthUnsubscribe st1 sid).1, .error .installFailed)
    else (st1, .error .unsupportedType)

/-- Identifier discipline: all identifiers in the state are below the
allocators. -/
def evWF (st : EvState) : Prop :=
  (∀ f ∈ st.storeFilters, f.1 < st.nextFilterId) ∧
  (∀ i ∈ st.eventFilters, i < st.nextFilterId) ∧
  (∀ i ∈ st.tipsetFilters, i < st.nextFilterId) ∧
  (∀ i ∈ st.mempoolFilters, i < st.nextFilterId) ∧
  (∀ j ∈ st.subs, j < st.nextSubId)

/-! ## The subscription send queue -/

/-- Per-subscription send-stage state (`ethSubscription`): liveness
(`quit != nil`), the queued marshalled payloads, the producer counter
`sendQueueLen`, the attached filters, the set of globally installed
filters and the coalesced `sendCond` signal. -/
structure SubSendState where
  active : Bool
  toSend : List Nat
  sendQueueLen : Nat
  filters : List Nat
  installedFilters : List Nat
  signalPending : Bool
deriving DecidableEq, Repr

/-- `maxSendQueue` (eth_event_api.go:977). -/
def maxSendQueue : Nat := 20000

/-- `ethSubscription.stop` (eth_event_api.go:1124): a no-op once stopped;
otherwise cancels the stages and uninstalls every attached filter. -/
def ethSubscriptionStop (st : SubSendState) : SubSendState :=
  if st.active then
    { st with
        active := false
        installedFilters := st.installedFilters.filter (fun i => !(st.filters.contains i)) }
  else st

/-- `ethSubscription.send` (eth_event_api.go:1038): marshal (a failure is
logged and the payload dropped), enqueue, bump the counter; past
`maxSendQueue` the whole subscription is stopped, else the coalesced
signal is raised. -/
def ethSubscriptionSend (st : SubSendState) (payload : Nat) (marshalOk : Bool) :
    SubSendState :=
  if !marshalOk then st
  else if st.sendQueueLen + 1 > maxSendQueue then
    ethSubscriptionStop
      { st with toSend := st.toSend ++ [payload], sendQueueLen := st.sendQueueLen + 1 }
  else
    { st with
        toSend := st.toSend ++ [payload]
        sendQueueLen := st.sendQueueLen + 1
        signalPending := true }

/-! ## The `newHeads` ingest step -/

/-- A tipset as seen by the ingest stage: height and parents key. -/
structure ModelTipSet where
  height : Nat
  parents : Nat
deriving DecidableEq, Repr

/-- Ingest-stage state for `newHeads`: last-sent tipset key and the block
records handed to `send`, in order. -/
structure IngestState where
  lastSentTipset : Option Nat
  sent : List Nat
deriving DecidableEq, Repr

/-- The `*types.TipSet` case of `ethSubscription.start`
(eth_event_api.go:1085-1106): skip a height-0 head, dedup on the parent
key against `lastSentTipset`, load the parent (skipping on failure),
compose the block record (skipping on failure), send it and record the
parent key as last sent. -/
def tipSetIngestStep (st : IngestState) (ts : ModelTipSet)
    (chainGetTipSet : Nat → Option ModelTipSet)
    (newEthBlock : ModelTipSet → Option Nat) : IngestState :=
  if ts.height = 0 then st
  else if st.lastSentTipset = some ts.parents then st
  else
    match chainGetTipSet ts.parents with
    | none => st
    | some parentTipSet =>
      match newEthBlock parentTipSet with
      | none => st
      | some ethBlock =>
        { lastSentTipset := some ts.parents, sent := st.sent ++ [ethBlock] }

/-! ## `ethGetEventsForFilter` height validation -/

/-- The two error sites of the height validation in
`ethGetEventsForFilter`. -/
inductive GetEventsErr where
  | negativeHeight
  | aboveHeaviest
deriving DecidableEq, Repr

/-- The `maxHeight == -1` resolution of `ethGetEventsForFilter`
(eth_event_api.go:200-204). -/
def resolvedMaxHeight (headHeight pfMaxHeight : Int) : Int :=
  if pfMaxHeight = -1 then headHeight - 1 else pfMaxHeight

/-- The no-block-hash branch of `ethEventAPI.ethGetEventsForFilter`
(eth_event_api.go:199-215): resolve the `-1` sentinel to the head height
minus one, then validate; the returned height is the one handed to
`waitForHeightProcessed` on line 216. -/
def ethGetEventsForFilterMaxHeight (headHeight pfMaxHeight : Int) :
    Except GetEventsErr Int :=
  if resolvedMaxHeight headHeight pfMaxHeight < 0 then .error .negativeHeight
  else if resolvedMaxHeight headHeight pfMaxHeight > headHeight - 1 then
    .error .aboveHeaviest
  else .ok (resolvedMaxHeight headHeight pfMaxHeight)

/-! ## Lemmas about keys, slots and list plumbing -/

theorem bytesLe_two {a b c d : Nat} :
    bytesLe [a, b] [c, d] = true ↔ (a < c ∨ (a = c ∧ b ≤ d)) := by
  simp only [bytesLe]
  split_ifs with h1 h2 h3 h4 <;> simp <;> omega

theorem isTopicKey_elim {key : List Nat} (h : isTopicKey key = true) :
    ∃ c, key = [116, c] ∧ 49 ≤ c ∧ c ≤ 52 := by
  match key with
  | [] => simp [isTopicKey] at h
  | [a] => simp [isTopicKey] at h
  | a :: b :: c :: t => simp [isTopicKey] at h
  | [a, b] =>
    simp only [isTopicKey, keyT1, keyT4, Bool.and_eq_true, decide_eq_true_eq] at h
    obtain ⟨⟨-, h1⟩, h2⟩ := h
    rw [bytesLe_two] at h1 h2
    have hk : a = 116 ∧ 49 ≤ b ∧ b ≤ 52 := by omega
    exact ⟨b, by rw [hk.1], hk.2.1, hk.2.2⟩

theorem entrySlot_lt_four {e : EventEntry} (h : isTopicEntry e = true) :
    entrySlot e < 4 := by
  obtain ⟨c, hk, h1, h2⟩ := isTopicKey_elim h
  simp only [entrySlot, topicSlot, hk, List.getD_cons_succ, List.getD_cons_zero]
  omega

theorem topicEntry_key_ne_keyD {e : EventEntry} (h : isTopicEntry e = true) :
    e.key ≠ keyD := by
  obtain ⟨c, hk, -, -⟩ := isTopicKey_elim h
  simp [hk, keyD]

theorem slotFilled_cons {e : EventEntry} {p : List EventEntry} {i : Nat} :
    slotFilled (e :: p) i ↔
      (isTopicEntry e = true ∧ entrySlot e = i) ∨ slotFilled p i := by
  constructor
  · rintro ⟨x, hx, ht, hs⟩
    rcases List.mem_cons.1 hx with rfl | hx
    · exact Or.inl ⟨ht, hs⟩
    · exact Or.inr ⟨x, hx, ht, hs⟩
  · rintro (⟨ht, hs⟩ | ⟨x, hx, ht, hs⟩)
    · exact ⟨e, List.mem_cons_self e p, ht, hs⟩
    · exact ⟨x, List.mem_cons_of_mem _ hx, ht, hs⟩

theorem slotFilled_append_singleton {p : List EventEntry} {e : EventEntry} {j : Nat} :
    slotFilled (p ++ [e]) j ↔
      slotFilled p j ∨ (isTopicEntry e = true ∧ entrySlot e = j) := by
  constructor
  · rintro ⟨x, hx, ht, hs⟩
    rcases List.mem_append.1 hx with hx | hx
    · exact Or.inl ⟨x, hx, ht, hs⟩
    · rcases List.mem_singleton.1 hx with rfl
      exact Or.inr ⟨ht, hs⟩
  · rintro (⟨x, hx, ht, hs⟩ | ⟨ht, hs⟩)
    · exact ⟨x, List.mem_append_left _ hx, ht, hs⟩
    · exact ⟨e, List.mem_append_right _ (List.mem_singleton_self e), ht, hs⟩

theorem filter_length_pos {α : Type} {pred : α → Bool} {l : List α} {x : α}
    (hx : x ∈ l) (hp : pred x = true) : 1 ≤ (l.filter pred).length := by
  have hmem : x ∈ l.filter pred := List.mem_filter.2 ⟨hx, hp⟩
  have := List.length_pos.2 (List.ne_nil_of_mem hmem)
  omega

theorem hasDuplicateTopic_intro {xs ys : List EventEntry} {a b : EventEntry}
    (ha : a ∈ xs) (hat : isTopicEntry a = true) (hbt : isTopicEntry b = true)
    (hslot : entrySlot a = entrySlot b) : hasDuplicateTopic (xs ++ b :: ys) := by
  refine ⟨entrySlot b, ?_⟩
  rw [List.filter_append, List.length_append]
  have h1 : 1 ≤ (xs.filter (fun e => isTopicEntry e && entrySlot e == entrySlot b)).length :=
    filter_length_pos ha (by simp [hat, hslot])
  have h2 : ((b :: ys).filter (fun e => isTopicEntry e && entrySlot e == entrySlot b)) =
      b :: (ys.filter (fun e => isTopicEntry e && entrySlot e == entrySlot b)) :=
    List.filter_cons_of_pos (by simp [hbt])
  rw [h2]
  simp only [List.length_cons]
  omega

theorem hasDuplicateData_intro {xs ys : List EventEntry} {a b : EventEntry}
    (ha : a ∈ xs) (hak : a.key = keyD) (hbk : b.key = keyD) :
    hasDuplicateData (xs ++ b :: ys) := by
  unfold hasDuplicateData
  rw [List.filter_append, List.length_append]
  have h1 : 1 ≤ (xs.filter (fun e => e.key == keyD)).length :=
    filter_length_pos ha (by simp [hak])
  have h2 : ((b :: ys).filter (fun e => e.key == keyD)) =
      b :: (ys.filter (fun e => e.key == keyD)) :=
    List.filter_cons_of_pos (by simp [hbk])
  rw [h2]
  simp only [List.length_cons]
  omega

theorem foldl_topicsLenF (p : List EventEntry) (b : Nat) :
    p.foldl topicsLenF b = max b (p.foldl topicsLenF 0) := by
  induction p generalizing b with
  | nil => simp
  | cons e p ih =>
    simp only [List.foldl_cons]
    rw [ih (topicsLenF b e), ih (topicsLenF 0 e)]
    by_cases h : isTopicEntry e = true <;> simp [topicsLenF, h] <;> omega

theorem topicsLen_cons (e : EventEntry) (p : List EventEntry) :
    topicsLen (e :: p) = max (topicsLenF 0 e) (topicsLen p) := by
  simp only [topicsLen, List.foldl_cons]
  exact foldl_topicsLenF p (topicsLenF 0 e)

theorem topicsLen_append_singleton (p : List EventEntry) (e : EventEntry) :
    topicsLen (p ++ [e]) = topicsLenF (topicsLen p) e := by
  simp [topicsLen, List.foldl_append]

theorem mem_slotSet_iff {es : List EventEntry} {i : Nat} :
    i ∈ slotSet es ↔ slotFilled es i := by
  simp only [slotSet, Finset.mem_filter, Finset.mem_range]
  constructor
  · exact fun h => h.2
  · intro h
    refine ⟨?_, h⟩
    obtain ⟨e, he, ht, hs⟩ := h
    have := entrySlot_lt_four ht
    omega

theorem slotSet_nil : slotSet [] = ∅ := by
  ext i
  simp [slotSet, slotFilled]

theorem slotSet_cons (e : EventEntry) (p : List EventEntry) :
    slotSet (e :: p) =
      if isTopicEntry e then insert (entrySlot e) (slotSet p) else slotSet p := by
  by_cases h : isTopicEntry e = true
  · rw [if_pos h]
    ext i
    rw [mem_slotSet_iff, Finset.mem_insert, mem_slotSet_iff, slotFilled_cons]
    constructor
    · rintro (⟨-, hs⟩ | hs)
      · exact Or.inl hs.symm
      · exact Or.inr hs
    · rintro (rfl | hs)
      · exact Or.inl ⟨h, rfl⟩
      · exact Or.inr hs
  · rw [if_neg h]
    ext i
    rw [mem_slotSet_iff, mem_slotSet_iff, slotFilled_cons]
    constructor
    · rintro (⟨ht, -⟩ | hs)
      · exact absurd ht h
      · exact hs
    · exact Or.inr

theorem topicsLen_eq_sup (p : List EventEntry) :
    topicsLen p = (slotSet p).sup (fun i => i + 1) := by
  induction p with
  | nil => simp [topicsLen, slotSet_nil]
  | cons e p ih =>
    rw [topicsLen_cons, slotSet_cons, ih]
    by_cases h : isTopicEntry e = true
    · simp only [h, if_true, Finset.sup_insert, topicsLenF]
      simp [Nat.max_comm]
    · simp [topicsLenF, h]

theorem topicCount_cons (e : EventEntry) (p : List EventEntry) :
    topicCount (e :: p) = (if isTopicEntry e then 1 else 0) + topicCount p := by
  by_cases h : isTopicEntry e = true <;>
    simp [topicCount, List.filter_cons, h] <;> omega

theorem topicCount_append_singleton (p : List EventEntry) (e : EventEntry) :
    topicCount (p ++ [e]) = topicCount p + (if isTopicEntry e then 1 else 0) := by
  by_cases h : isTopicEntry e = true <;>
    simp [topicCount, List.filter_append, List.filter_cons, h]

theorem nodup_cons_elim {e : EventEntry} {p : List EventEntry}
    (h : ¬ hasDuplicateTopic (e :: p)) :
    ¬ hasDuplicateTopic p ∧ (isTopicEntry e = true → ¬ slotFilled p (entrySlot e)) := by
  constructor
  · rintro ⟨i, hi⟩
    apply h
    refine ⟨i, ?_⟩
    rw [List.filter_cons]
    split
    · simp only [List.length_cons]; omega
    · exact hi
  · rintro ht ⟨x, hx, hxt, hxs⟩
    apply h
    refine ⟨entrySlot e, ?_⟩
    rw [List.filter_cons_of_pos (by simp [ht])]
    have h1 : 1 ≤ (p.filter (fun e' => isTopicEntry e' && entrySlot e' == entrySlot e)).length :=
      filter_length_pos hx (by simp [hxt, hxs])
    simp only [List.length_cons]
    omega

theorem topicCount_eq_card {p : List EventEntry} (h : ¬ hasDuplicateTopic p) :
    topicCount p = (slotSet p).card := by
  induction p with
  | nil => simp [topicCount, slotSet_nil]
  | cons e p ih =>
    obtain ⟨h1, h2⟩ := nodup_cons_elim h
    rw [topicCount_cons, slotSet_cons]
    by_cases ht : isTopicEntry e = true
    · have hni : entrySlot e ∉ slotSet p := fun hc => h2 ht (mem_slotSet_iff.1 hc)
      rw [if_pos ht, if_pos ht, Finset.card_insert_of_not_mem hni, ih h1]
      omega
    · rw [if_neg ht, if_neg ht, ih h1]
      omega

theorem card_sup_char :
    ∀ S ∈ (Finset.range 4).powerset,
      ((S.card = S.sup (fun i => i + 1)) ↔ ∀ i ∈ S, ∀ k < i, k ∈ S) ∧
      ((S.card = S.sup (fun i => i + 1)) → ∀ i < S.sup (fun i => i + 1), i ∈ S) := by
  decide

theorem hasTopicGap_iff {p : List EventEntry} :
    hasTopicGap p ↔ ∃ i ∈ slotSet p, ∃ k < i, k ∉ slotSet p := by
  constructor
  · rintro ⟨e, he, ht, k, hk, hnf⟩
    exact ⟨entrySlot e, mem_slotSet_iff.2 ⟨e, he, ht, rfl⟩, k, hk,
      fun hc => hnf (mem_slotSet_iff.1 hc)⟩
  · rintro ⟨i, hi, k, hk, hni⟩
    obtain ⟨e, he, ht, hs⟩ := mem_slotSet_iff.1 hi
    exact ⟨e, he, ht, k, by omega, fun hf => hni (mem_slotSet_iff.2 hf)⟩

theorem gap_iff_len_ne {p : List EventEntry} (hnd : ¬ hasDuplicateTopic p) :
    hasTopicGap p ↔ topicsLen p ≠ topicCount p := by
  have hpow : slotSet p ∈ (Finset.range 4).powerset :=
    Finset.mem_powerset.2 (Finset.filter_subset _ _)
  have hchar := card_sup_char (slotSet p) hpow
  rw [topicsLen_eq_sup, topicCount_eq_card hnd, hasTopicGap_iff]
  constructor
  · rintro ⟨i, hi, k, hk, hni⟩ heq
    exact hni (hchar.1.1 heq.symm i hi k hk)
  · intro hne
    by_contra hno
    push_neg at hno
    exact hne (hchar.1.2 fun i hi k hk => hno i hi k hk).symm

theorem slotFilled_of_no_gap {p : List EventEntry}
    (hnd : ¬ hasDuplicateTopic p) (hlen : topicsLen p = topicCount p)
    {i : Nat} (hi : i < topicsLen p) : slotFilled p i := by
  have hpow : slotSet p ∈ (Finset.range 4).powerset :=
    Finset.mem_powerset.2 (Finset.filter_subset _ _)
  have hchar := card_sup_char (slotSet p) hpow
  apply mem_slotSet_iff.1
  apply hchar.2
  · rw [← topicCount_eq_card hnd, ← topicsLen_eq_sup]
    exact hlen.symm
  · rw [← topicsLen_eq_sup]
    exact hi

theorem entrySlot_lt_topicsLen {p : List EventEntry} {e : EventEntry}
    (he : e ∈ p) (ht : isTopicEntry e = true) : entrySlot e < topicsLen p := by
  rw [topicsLen_eq_sup]
  have hmem : entrySlot e ∈ slotSet p := mem_slotSet_iff.2 ⟨e, he, ht, rfl⟩
  have hle : entrySlot e + 1 ≤ (slotSet p).sup (fun i => i + 1) := Finset.le_sup hmem
  omega

theorem getD_append_left {α : Type} (l₁ l₂ : List α) {i : Nat} (h : i < l₁.length) (d : α) :
    (l₁ ++ l₂).getD i d = l₁.getD i d := by
  rw [List.getD_eq_getElem?_getD, List.getElem?_append_left h, List.getD_eq_getElem?_getD]

theorem getD_append_replicate {α : Type} (l : List α) {n i : Nat} (x : α)
    (h1 : l.length ≤ i) (h2 : i < l.length + n) (d : α) :
    (l ++ List.replicate n x).getD i d = x := by
  rw [List.getD_eq_getElem?_getD, List.getElem?_append_right h1, List.getElem?_replicate,
    if_pos (by omega)]
  rfl

theorem getD_set_self {α : Type} (l : List α) {i : Nat} (h : i < l.length) (a d : α) :
    (l.set i a).getD i d = a := by
  rw [List.getD_eq_getElem?_getD, List.getElem?_set_self h]
  rfl

theorem getD_set_ne {α : Type} (l : List α) {i j : Nat} (h : i ≠ j) (a d : α) :
    (l.set i a).getD j d = l.getD j d := by
  rw [List.getD_eq_getElem?_getD, List.getElem?_set_ne h, List.getD_eq_getElem?_getD]

theorem copyBytes_full {dst src : List Nat} (h1 : dst.length = 32) (h2 : src.length = 32) :
    copyBytes dst src = src := by
  unfold copyBytes
  rw [h1, h2, Nat.min_self, List.take_of_length_le (by omega),
    List.drop_eq_nil_of_le (by omega), List.append_nil]

theorem length_extendTopics (t : List (List Nat)) (i : Nat) :
    (extendTopics t i).length = max t.length (i + 1) := by
  simp [extendTopics]
  omega

theorem getD_extendTopics_lt (t : List (List Nat)) {i j : Nat} (h : j < t.length) :
    (extendTopics t i).getD j [] = t.getD j [] :=
  getD_append_left _ _ h _

theorem getD_extendTopics_pad (t : List (List Nat)) {i j : Nat}
    (h1 : t.length ≤ j) (h2 : j ≤ i) :
    (extendTopics t i).getD j [] = emptyEthHash := by
  apply getD_append_replicate
  · exact h1
  · omega

theorem length_getD_extendTopics (t : List (List Nat)) {i j : Nat}
    (hlen : ∀ k, k < t.length → (t.getD k []).length = 32)
    (hj : j < (extendTopics t i).length) :
    ((extendTopics t i).getD j []).length = 32 := by
  rw [length_extendTopics] at hj
  by_cases hlt : j < t.length
  · rw [getD_extendTopics_lt _ hlt]
    exact hlen j hlt
  · rw [getD_extendTopics_pad _ (by omega) (by omega)]
    simp [emptyEthHash]

theorem length_placeTopic (t : List (List Nat)) (i : Nat) (v : List Nat) :
    (placeTopic t i v).length = max t.length (i + 1) := by
  simp [placeTopic, length_extendTopics]

theorem getD_placeTopic_self (t : List (List Nat)) (i : Nat) {v : List Nat}
    (hlen : ∀ k, k < t.length → (t.getD k []).length = 32)
    (hv : v.length = 32) :
    (placeTopic t i v).getD i [] = v := by
  unfold placeTopic
  have hi : i < (extendTopics t i).length := by
    rw [length_extendTopics]; omega
  rw [getD_set_self _ hi]
  exact copyBytes_full (length_getD_extendTopics t hlen hi) hv

theorem getD_placeTopic_ne (t : List (List Nat)) {i j : Nat} (h : i ≠ j) (v : List Nat) :
    (placeTopic t i v).getD j [] = (extendTopics t i).getD j [] := by
  unfold placeTopic
  exact getD_set_ne _ h _ _

theorem length_getD_placeTopic (t : List (List Nat)) {i j : Nat} {v : List Nat}
    (hlen : ∀ k, k < t.length → (t.getD k []).length = 32)
    (hv : v.length = 32) (hj : j < (placeTopic t i v).length) :
    ((placeTopic t i v).getD j []).length = 32 := by
  by_cases hij : i = j
  · subst hij
    rw [getD_placeTopic_self t i hlen hv]
    exact hv
  · rw [getD_placeTopic_ne t hij v]
    apply length_getD_extendTopics t hlen
    rw [length_extendTopics]
    rw [length_placeTopic] at hj
    omega

/-! ## The loop invariant of `ethLogFromEvent` -/

theorem goInv_nil : GoInv [] initLogAccum := by
  refine ⟨?_, ?_, ?_, ?_, ?_, ?_, ?_, ?_, ?_⟩ <;>
    simp [initLogAccum, hasDuplicateTopic, hasDuplicateData, topicCount,
      slotFilled, topicsLen]

theorem ethLogStep_some_inv {p : List EventEntry} {s : LogAccum} {e : EventEntry}
    {s1 : LogAccum} (inv : GoInv p s) (h : ethLogStep s e = some s1) :
    GoInv (p ++ [e]) s1 := by
  have hmemE : e ∈ p ++ [e] := List.mem_append_right _ (List.mem_singleton_self e)
  unfold ethLogStep at h
  by_cases hc : e.codec ≠ rawCodec
  · rw [if_pos hc] at h
    exact absurd h (by simp)
  rw [if_neg hc] at h
  push_neg at hc
  by_cases ht : isTopicKey e.key = true
  · -- topic entry
    have hte : isTopicEntry e = true := ht
    rw [if_pos ht] at h
    by_cases hsz : e.value.length ≠ 32
    · rw [if_pos hsz] at h
      exact absurd h (by simp)
    rw [if_neg hsz] at h
    push_neg at hsz
    by_cases hf : s.topicsFound (topicSlot e.key) = true
    · rw [if_pos hf] at h
      exact absurd h (by simp)
    rw [if_neg hf] at h
    injection h with h
    subst h
    refine ⟨?_, ?_, ?_, ?_, ?_, ?_, ?_, ?_, ?_⟩
    · -- clean
      intro x hx
      rcases List.mem_append.1 hx with hx | hx
      · exact inv.clean x hx
      · rcases List.mem_singleton.1 hx with rfl
        exact ⟨hc, fun _ => hsz⟩
    · -- nodup
      rintro ⟨i, hi⟩
      rw [List.filter_append] at hi
      by_cases hii : i = entrySlot e
      · subst hii
        rw [List.filter_cons_of_pos (by simp [hte])] at hi
        simp only [List.filter_nil, List.length_append, List.length_cons,
          List.length_nil] at hi
        have h1 : 1 ≤ (p.filter
            (fun x => isTopicEntry x && entrySlot x == entrySlot e)).length := by omega
        obtain ⟨a, ha⟩ := List.exists_mem_of_length_pos
          (l := p.filter (fun x => isTopicEntry x && entrySlot x == entrySlot e))
          (by omega)
        obtain ⟨ha, hpa⟩ := List.mem_filter.1 ha
        simp only [Bool.and_eq_true, beq_iff_eq] at hpa
        exact hf ((inv.found _).2 ⟨a, ha, hpa.1, hpa.2⟩)
      · have hpe : (isTopicEntry e && (entrySlot e == i)) = false := by
          simp only [hte, Bool.true_and, beq_eq_false_iff_ne, ne_eq]
          omega
        rw [List.filter_cons_of_neg (by simp [hpe]), List.filter_nil,
          List.append_nil] at hi
        exact inv.nodup ⟨i, hi⟩
    · -- nodupData
      rintro hdd
      unfold hasDuplicateData at hdd
      rw [List.filter_append,
        List.filter_cons_of_neg (by simp [topicEntry_key_ne_keyD hte]),
        List.filter_nil, List.append_nil] at hdd
      exact inv.nodupData hdd
    · -- count
      rw [topicCount_append_singleton, if_pos hte, inv.count]
    · -- found
      intro i
      rw [slotFilled_append_singleton]
      by_cases hii : i = topicSlot e.key
      · subst hii
        simp only [if_pos rfl]
        constructor
        · intro _
          exact Or.inr ⟨hte, rfl⟩
        · intro _
          rfl
      · simp only [if_neg hii]
        rw [inv.found i]
        constructor
        · exact Or.inl
        · rintro (hs | ⟨-, hs⟩)
          · exact hs
          · exact absurd hs.symm hii
    · -- dataF
      constructor
      · intro hdv
        obtain ⟨x, hx, hk⟩ := inv.dataF.1 hdv
        exact ⟨x, List.mem_append_left _ hx, hk⟩
      · rintro ⟨x, hx, hk⟩
        rcases List.mem_append.1 hx with hx | hx
        · exact inv.dataF.2 ⟨x, hx, hk⟩
        · rcases List.mem_singleton.1 hx with rfl
          exact absurd hk (topicEntry_key_ne_keyD hte)
    · -- tlen
      show (placeTopic s.topics (topicSlot e.key) e.value).length = _
      rw [length_placeTopic, topicsLen_append_singleton, inv.tlen]
      unfold topicsLenF
      rw [if_pos hte]
      simp [entrySlot]
    · -- tval
      intro x hx hxt
      rcases List.mem_append.1 hx with hx | hx
      · have hxs : entrySlot x ≠ topicSlot e.key := by
          intro hh
          exact hf ((inv.found _).2 ⟨x, hx, hxt, hh⟩)
        show (placeTopic s.topics (topicSlot e.key) e.value).getD (entrySlot x) [] = _
        rw [getD_placeTopic_ne _ (fun hh => hxs hh.symm) _, getD_extendTopics_lt]
        · exact inv.tval x hx hxt
        · rw [inv.tlen]
          exact entrySlot_lt_topicsLen hx hxt
      · rcases List.mem_singleton.1 hx with rfl
        exact getD_placeTopic_self _ _ (fun k hk => inv.tlen32 k hk) hsz
    · -- tlen32
      intro i hi
      exact length_getD_placeTopic _ (fun k hk => inv.tlen32 k hk) hsz hi
  · -- not a topic entry
    have hte : isTopicEntry e = false := Bool.eq_false_iff.mpr ht
    rw [if_neg ht] at h
    by_cases hd : e.key = keyD
    · -- data entry
      rw [if_pos hd] at h
      by_cases hdf : s.dataFound = true
      · rw [if_pos hdf] at h
        exact absurd h (by simp)
      rw [if_neg hdf] at h
      injection h with h
      subst h
      refine ⟨?_, ?_, ?_, ?_, ?_, ?_, ?_, ?_, ?_⟩
      · intro x hx
        rcases List.mem_append.1 hx with hx | hx
        · exact inv.clean x hx
        · rcases List.mem_singleton.1 hx with rfl
          exact ⟨hc, fun hxt => absurd hxt ht⟩
      · rintro ⟨i, hi⟩
        rw [List.filter_append, List.filter_cons_of_neg (by simp [hte]),
          List.filter_nil, List.append_nil] at hi
        exact inv.nodup ⟨i, hi⟩
      · rintro hdd
        unfold hasDuplicateData at hdd
        rw [List.filter_append] at hdd
        have hfp : List.filter (fun x => x.key == keyD) p = [] := by
          rw [List.filter_eq_nil_iff]
          intro a ha
          simp only [beq_iff_eq]
          intro hak
          exact hdf (inv.dataF.2 ⟨a, ha, hak⟩)
        rw [hfp, List.nil_append] at hdd
        have hle := List.length_filter_le (fun x => x.key == keyD) [e]
        simp only [List.length_cons, List.length_nil] at hle
        omega
      · rw [topicCount_append_singleton, hte]
        simp [inv.count]
      · intro i
        rw [slotFilled_append_singleton]
        constructor
        · intro hh
          exact Or.inl ((inv.found i).1 hh)
        · rintro (hs | ⟨hts, -⟩)
          · exact (inv.found i).2 hs
          · exact absurd hts ht
      · constructor
        · intro _
          exact ⟨e, hmemE, hd⟩
        · intro _
          rfl
      · rw [topicsLen_append_singleton]
        unfold topicsLenF
        rw [hte]
        simp [inv.tlen]
      · intro x hx hxt
        rcases List.mem_append.1 hx with hx | hx
        · exact inv.tval x hx hxt
        · rcases List.mem_singleton.1 hx with rfl
          exact absurd hxt ht
      · exact inv.tlen32
    · -- unknown key: skipped
      rw [if_neg hd] at h
      injection h with h
      subst h
      refine ⟨?_, ?_, ?_, ?_, ?_, ?_, ?_, ?_, ?_⟩
      · intro x hx
        rcases List.mem_append.1 hx with hx | hx
        · exact inv.clean x hx
        · rcases List.mem_singleton.1 hx with rfl
          exact ⟨hc, fun hxt => absurd hxt ht⟩
      · rintro ⟨i, hi⟩
        rw [List.filter_append, List.filter_cons_of_neg (by simp [hte]),
          List.filter_nil, List.append_nil] at hi
        exact inv.nodup ⟨i, hi⟩
      · rintro hdd
        unfold hasDuplicateData at hdd
        rw [List.filter_append, List.filter_cons_of_neg (by simp [hd]),
          List.filter_nil, List.append_nil] at hdd
        exact inv.nodupData hdd
      · rw [topicCount_append_singleton, hte]
        simp [inv.count]
      · intro i
        rw [slotFilled_append_singleton]
        constructor
        · intro hh
          exact Or.inl ((inv.found i).1 hh)
        · rintro (hs | ⟨hts, -⟩)
          · exact (inv.found i).2 hs
          · exact absurd hts ht
      · rw [inv.dataF]
        constructor
        · rintro ⟨x, hx, hk⟩
          exact ⟨x, List.mem_append_left _ hx, hk⟩
        · rintro ⟨x, hx, hk⟩
          rcases List.mem_append.1 hx with hx | hx
          · exact ⟨x, hx, hk⟩
          · rcases List.mem_singleton.1 hx with rfl
            exact absurd hk hd
      · rw [topicsLen_append_singleton]
        unfold topicsLenF
        rw [hte]
        simp [inv.tlen]
      · intro x hx hxt
        rcases List.mem_append.1 hx with hx | hx
        · exact inv.tval x hx hxt
        · rcases List.mem_singleton.1 hx with rfl
          exact absurd hxt ht
      · exact inv.tlen32

theorem ethLogStep_none_bad {p : List EventEntry} {s : LogAccum} {e : EventEntry}
    (inv : GoInv p s) (h : ethLogStep s e = none) (rest : List EventEntry) :
    badEntries (p ++ e :: rest) := by
  have hmem : e ∈ p ++ e :: rest := List.mem_append_right _ (List.mem_cons_self e rest)
  unfold ethLogStep at h
  by_cases hc : e.codec ≠ rawCodec
  · exact Or.inl ⟨e, hmem, hc⟩
  rw [if_neg hc] at h
  by_cases ht : isTopicKey e.key = true
  · rw [if_pos ht] at h
    by_cases hsz : e.value.length ≠ 32
    · exact Or.inr (Or.inl ⟨e, hmem, ht, hsz⟩)
    rw [if_neg hsz] at h
    by_cases hf : s.topicsFound (topicSlot e.key) = true
    · obtain ⟨a, ha, hat, has⟩ := (inv.found _).1 hf
      exact Or.inr (Or.inr (Or.inl (hasDuplicateTopic_intro ha hat ht has)))
    · rw [if_neg hf] at h
      exact absurd h (by simp)
  · rw [if_neg ht] at h
    by_cases hd : e.key = keyD
    · rw [if_pos hd] at h
      by_cases hdf : s.dataFound = true
      · obtain ⟨a, ha, hak⟩ := inv.dataF.1 hdf
        exact Or.inr (Or.inr (Or.inr (Or.inl (hasDuplicateData_intro ha hak hd))))
      · rw [if_neg hdf] at h
        exact absurd h (by simp)
    · rw [if_neg hd] at h
      exact absurd h (by simp)

theorem ethLogGo_spec (rest : List EventEntry) :
    ∀ (p : List EventEntry) (s : LogAccum), GoInv p s →
      ((ethLogGo s rest = none ↔ badEntries (p ++ rest)) ∧
       (∀ d tps, ethLogGo s rest = some (d, tps) →
         tps.length = topicCount (p ++ rest) ∧
         ∀ i, i < tps.length → ∃ e ∈ p ++ rest, isTopicEntry e = true ∧ entrySlot e = i ∧
           e.value.length = 32 ∧ tps.getD i [] = e.value)) := by
  induction rest with
  | nil =>
    intro p s inv
    rw [List.append_nil]
    have hbad_iff : badEntries p ↔ hasTopicGap p := by
      unfold badEntries
      have h1 : ¬ hasNonRawEntry p := by
        rintro ⟨x, hx, hcc⟩
        exact hcc (inv.clean x hx).1
      have h2 : ¬ hasBadTopicSize p := by
        rintro ⟨x, hx, htt, hss⟩
        exact hss ((inv.clean x hx).2 htt)
      have h3 := inv.nodup
      have h4 := inv.nodupData
      tauto
    constructor
    · simp only [ethLogGo]
      by_cases hlen : s.topics.length ≠ s.topicsFoundCount
      · rw [if_pos hlen]
        apply iff_of_true rfl
        rw [hbad_iff, gap_iff_len_ne inv.nodup, ← inv.tlen, ← inv.count]
        exact hlen
      · rw [if_neg hlen]
        push_neg at hlen
        apply iff_of_false (by simp)
        rw [hbad_iff, gap_iff_len_ne inv.nodup, ← inv.tlen, ← inv.count]
        exact fun hh => hh hlen
    · intro d tps hsome
      simp only [ethLogGo] at hsome
      by_cases hlen : s.topics.length ≠ s.topicsFoundCount
      · rw [if_pos hlen] at hsome
        exact absurd hsome (by simp)
      · rw [if_neg hlen] at hsome
        push_neg at hlen
        injection hsome with hp
        obtain ⟨rfl, rfl⟩ := Prod.ext_iff.1 hp
        constructor
        · rw [← inv.count]
          exact hlen
        · intro i hi
          have hEq : topicsLen p = topicCount p := by
            rw [← inv.tlen, ← inv.count]
            exact hlen
          have hfill : slotFilled p i := by
            apply slotFilled_of_no_gap inv.nodup hEq
            rw [← inv.tlen]
            exact hi
          obtain ⟨a, ha, hat, has⟩ := hfill
          refine ⟨a, ha, hat, has, (inv.clean a ha).2 hat, ?_⟩
          rw [← has]
          exact inv.tval a ha hat
  | cons e rest ih =>
    intro p s inv
    simp only [ethLogGo]
    rcases hstep : ethLogStep s e with _ | s1
    · simp only [hstep]
      constructor
      · exact iff_of_true (by trivial) (ethLogStep_none_bad inv hstep rest)
      · intro d tps hh
        exact absurd hh (by simp)
    · simp only [hstep]
      have inv1 := ethLogStep_some_inv inv hstep
      have hmain := ih (p ++ [e]) s1 inv1
      rw [List.append_assoc, List.singleton_append] at hmain
      exact hmain

/-- C1: `ethLogFromEvent` rejects an entry list exactly when it holds a
non-raw-codec entry, a topic entry whose value is not 32 bytes, two topic
entries claiming one slot, a second `"d"` entry, or a gap in the claimed
topic slots (entries with other labels being skipped harmlessly); and on
success the topics list is a gap-free prefix whose length is the number of
topic entries, slot `i` holding the 32-byte value of the `"t(i+1)"` entry. -/
theorem ethLogFromEvent_spec (es : List EventEntry) :
    (ethLogFromEvent es = none ↔
      (hasNonRawEntry es ∨ hasBadTopicSize es ∨ hasDuplicateTopic es ∨
        hasDuplicateData es ∨ hasTopicGap es)) ∧
    (∀ d tps, ethLogFromEvent es = some (d, tps) →
      tps.length = topicCount es ∧
      ∀ i, i < tps.length → ∃ e ∈ es, isTopicEntry e = true ∧ entrySlot e = i ∧
        e.value.length = 32 ∧ tps.getD i [] = e.value) := by
  have hmain := ethLogGo_spec es [] initLogAccum goInv_nil
  rw [List.nil_append] at hmain
  exact hmain

/-! ## C2: `parseBlockRange` -/

theorem parseBlockRange_ok_elim {heaviest maxRange : Int} {fromB toB : Option String}
    {mn mx : Int} (h : parseBlockRange heaviest fromB toB maxRange = .ok (mn, mx)) :
    parseBlockRangeFrom heaviest fromB = .ok mn ∧ parseBlockRangeTo toB = .ok mx := by
  unfold parseBlockRange at h
  rcases hf : parseBlockRangeFrom heaviest fromB with e | a
  · simp only [hf] at h
    exact absurd h (by simp)
  simp only [hf] at h
  rcases ht : parseBlockRangeTo toB with e | b
  · simp only [ht] at h
    exact absurd h (by simp)
  simp only [ht] at h
  split_ifs at h <;> simp_all

/-- C2: `parseBlockRange` resolves absent/"latest"/empty bounds to the
heaviest height (from) and the `-1` sentinel (to), "earliest" to 0,
rejects non-hex strings and invalid hex, rejects oversized spans (using
the heaviest height for an open-ended upper bound) and inverted explicit
ranges, and in particular maps the three concrete example inputs as the
spec states. -/
theorem parseBlockRange_spec :
    (parseBlockRange 100 (some "0x5") (some "0x0a") 50 = .ok (5, 10)) ∧
    (parseBlockRange 100 (some "0x0a") (some "0x05") 50 = .error .invertedRange) ∧
    (parseBlockRange 100 none none 50 = .ok (100, -1)) ∧
    (∀ heaviest maxRange toB f mn mx,
      (f = none ∨ f = some "latest" ∨ f = some "") →
      parseBlockRange heaviest f toB maxRange = .ok (mn, mx) → mn = heaviest) ∧
    (∀ heaviest maxRange fromB t mn mx,
      (t = none ∨ t = some "latest" ∨ t = some "") →
      parseBlockRange heaviest fromB t maxRange = .ok (mn, mx) → mx = -1) ∧
    (∀ heaviest maxRange toB mn mx,
      parseBlockRange heaviest (some "earliest") toB maxRange = .ok (mn, mx) →
      mn = 0) ∧
    (∀ heaviest maxRange fromB mn mx,
      parseBlockRange heaviest fromB (some "earliest") maxRange = .ok (mn, mx) →
      mx = 0) ∧
    (∀ heaviest maxRange toB s, s ≠ "latest" → s.length ≠ 0 → s ≠ "earliest" →
      hasPrefix0x s = false →
      parseBlockRange heaviest (some s) toB maxRange = .error .fromNotHex) ∧
    (∀ heaviest maxRange toB s, s ≠ "latest" → s.length ≠ 0 → s ≠ "earliest" →
      hasPrefix0x s = true → ethUint64FromHex s = none →
      parseBlockRange heaviest (some s) toB maxRange = .error .fromInvalidEpoch) ∧
    (∀ heaviest maxRange fromB mn s,
      parseBlockRangeFrom heaviest fromB = .ok mn →
      s ≠ "latest" → s.length ≠ 0 → s ≠ "earliest" → hasPrefix0x s = false →
      parseBlockRange heaviest fromB (some s) maxRange = .error .toNotHex) ∧
    (∀ heaviest maxRange fromB toB mn mx,
      parseBlockRangeFrom heaviest fromB = .ok mn → parseBlockRangeTo toB = .ok mx →
      0 ≤ mn → 0 ≤ mx → mn ≤ mx → mx - mn > maxRange →
      parseBlockRange heaviest fromB toB maxRange = .error .rangeTooLarge) ∧
    (∀ heaviest maxRange fromB toB mn,
      parseBlockRangeFrom heaviest fromB = .ok mn → parseBlockRangeTo toB = .ok (-1) →
      0 ≤ mn → heaviest - mn > maxRange →
      parseBlockRange heaviest fromB toB maxRange = .error .fromFarInPast) ∧
    (∀ heaviest maxRange fromB toB mn mx,
      parseBlockRangeFrom heaviest fromB = .ok mn → parseBlockRangeTo toB = .ok mx →
      0 ≤ mx → mx < mn →
      parseBlockRange heaviest fromB toB maxRange = .error .invertedRange) := by
  refine ⟨by decide, by decide, by decide, ?_, ?_, ?_, ?_, ?_, ?_, ?_, ?_, ?_, ?_⟩
  · rintro heaviest maxRange toB f mn mx hf h
    obtain ⟨h1, -⟩ := parseBlockRange_ok_elim h
    rcases hf with rfl | rfl | rfl
    · rw [show parseBlockRangeFrom heaviest none = .ok heaviest from rfl] at h1
      injection h1 with h1
      omega
    · rw [show parseBlockRangeFrom heaviest (some "latest") = .ok heaviest from rfl] at h1
      injection h1 with h1
      omega
    · rw [show parseBlockRangeFrom heaviest (some "") = .ok heaviest from rfl] at h1
      injection h1 with h1
      omega
  · rintro heaviest maxRange fromB t mn mx ht h
    obtain ⟨-, h2⟩ := parseBlockRange_ok_elim h
    rcases ht with rfl | rfl | rfl
    · rw [show parseBlockRangeTo none = .ok (-1) from rfl] at h2
      injection h2 with h2
      omega
    · rw [show parseBlockRangeTo (some "latest") = .ok (-1) from rfl] at h2
      injection h2 with h2
      omega
    · rw [show parseBlockRangeTo (some "") = .ok (-1) from rfl] at h2
      injection h2 with h2
      omega
  · rintro heaviest maxRange toB mn mx h
    obtain ⟨h1, -⟩ := parseBlockRange_ok_elim h
    rw [show parseBlockRangeFrom heaviest (some "earliest") = .ok 0 from rfl] at h1
    injection h1 with h1
    omega
  · rintro heaviest maxRange fromB mn mx h
    obtain ⟨-, h2⟩ := parseBlockRange_ok_elim h
    rw [show parseBlockRangeTo (some "earliest") = .ok 0 from rfl] at h2
    injection h2 with h2
    omega
  · rintro heaviest maxRange toB s h1 h2 h3 h4
    have hres : parseBlockRangeFrom heaviest (some s) = .error .fromNotHex := by
      simp only [parseBlockRangeFrom]
      rw [if_neg (by push_neg; exact ⟨h1, h2⟩), if_neg h3, if_pos (by simp [h4])]
    simp only [parseBlockRange, hres]
  · rintro heaviest maxRange toB s h1 h2 h3 h4 h5
    have hres : parseBlockRangeFrom heaviest (some s) = .error .fromInvalidEpoch := by
      simp only [parseBlockRangeFrom]
      rw [if_neg (by push_neg; exact ⟨h1, h2⟩), if_neg h3, if_neg (by simp [h4]), h5]
    simp only [parseBlockRange, hres]
  · rintro heaviest maxRange fromB mn s hfrom h1 h2 h3 h4
    have hres : parseBlockRangeTo (some s) = .error .toNotHex := by
      simp only [parseBlockRangeTo]
      rw [if_neg (by push_neg; exact ⟨h1, h2⟩), if_neg h3, if_pos (by simp [h4])]
    simp only [parseBlockRange, hfrom, hres]
  · rintro heaviest maxRange fromB toB mn mx hfrom hto hmn hmx hle hbig
    simp only [parseBlockRange, hfrom, hto]
    split_ifs <;> first | rfl | (exfalso; omega) | (exfalso; simp_all) | (exfalso; simp_all; omega)
  · rintro heaviest maxRange fromB toB mn hfrom hto hmn hbig
    simp only [parseBlockRange, hfrom, hto]
    split_ifs <;> first | rfl | (exfalso; omega) | (exfalso; simp_all) | (exfalso; simp_all; omega)
  · rintro heaviest maxRange fromB toB mn mx hfrom hto hmx hlt
    simp only [parseBlockRange, hfrom, hto]
    split_ifs <;> first | rfl | (exfalso; omega) | (exfalso; simp_all) | (exfalso; simp_all; omega)

/-- Witness for C2: the from-resolution conjunct applied at a concrete
input with an absent `fromBlock`. -/
theorem parseBlockRange_spec_witness :
    parseBlockRange 7 none none 50 = .ok (7, -1) ∧ (7 : Int) = 7 :=
  ⟨by decide, parseBlockRange_spec.2.2.2.1 7 50 none none 7 (-1) (Or.inl rfl) (by decide)⟩

/-! ## C3: `waitForHeightProcessed` -/

theorem waitLoop_all_false (check : Nat → Except Unit Bool) :
    ∀ fuel callIdx used,
      (∀ i, callIdx ≤ i → i < callIdx + fuel → check i = .ok false) →
      waitLoop check callIdx used fuel = ⟨.timedOut, true, callIdx + fuel, used + fuel⟩ := by
  intro fuel
  induction fuel with
  | zero =>
    intro c u h
    simp [waitLoop]
  | succ m ih =>
    intro c u h
    have hc : check c = .ok false := h c (le_refl c) (by omega)
    simp only [waitLoop, hc]
    rw [ih (c + 1) (u + 1) (fun i h1 h2 => h i (by omega) (by omega))]
    simp only [WaitResult.mk.injEq, true_and]
    omega

theorem waitLoop_first_true (check : Nat → Except Unit Bool) :
    ∀ fuel k callIdx used, k < fuel →
      (∀ i, callIdx ≤ i → i < callIdx + k → check i = .ok false) →
      check (callIdx + k) = .ok true →
      waitLoop check callIdx used fuel =
        ⟨.done, true, callIdx + k + 1, used + k + 1⟩ := by
  intro fuel
  induction fuel with
  | zero =>
    intro k c u hk
    exact absurd hk (by omega)
  | succ m ih =>
    intro k c u hk hfalse htrue
    by_cases hk0 : k = 0
    · subst hk0
      rw [Nat.add_zero] at htrue
      simp only [waitLoop, htrue]
    · have hc : check c = .ok false := hfalse c (le_refl c) (by omega)
      simp only [waitLoop, hc]
      rw [ih (k - 1) (c + 1) (u + 1) (by omega)
        (fun i h1 h2 => hfalse i (by omega) (by omega))
        (by rw [show c + 1 + (k - 1) = c + k from by omega]; exact htrue)]
      simp only [WaitResult.mk.injEq, true_and]
      omega

/-- C3: `waitForHeightProcessed` fails fast without querying the index on
a future height; returns without subscribing when the first `IsHeightPast`
query succeeds; subscribes before the second query, so an index advance
between the first query and the subscription still returns success with no
notification consumed; and otherwise loops, rechecking once per
notification, until success or the (90-second) timeout. -/
theorem waitForHeightProcessed_spec :
    eventReadTimeoutSeconds = 90 ∧
    (∀ headHeight height check n, height > headHeight →
      waitForHeightProcessed headHeight height check n = ⟨.futureErr, false, 0, 0⟩) ∧
    (∀ headHeight height check n, height ≤ headHeight → check 0 = .ok true →
      waitForHeightProcessed headHeight height check n = ⟨.done, false, 1, 0⟩) ∧
    (∀ headHeight height check n, height ≤ headHeight → check 0 = .ok false →
      check 1 = .ok true →
      waitForHeightProcessed headHeight height check n = ⟨.done, true, 2, 0⟩) ∧
    (∀ headHeight height check n, height ≤ headHeight →
      (∀ i, i < 2 + n → check i = .ok false) →
      waitForHeightProcessed headHeight height check n =
        ⟨.timedOut, true, 2 + n, n⟩) ∧
    (∀ headHeight height check n k, height ≤ headHeight → k < n →
      (∀ i, i < 2 + k → check i = .ok false) → check (2 + k) = .ok true →
      waitForHeightProcessed headHeight height check n =
        ⟨.done, true, 3 + k, k + 1⟩) := by
  refine ⟨rfl, ?_, ?_, ?_, ?_, ?_⟩
  · intro hh h c n hgt
    simp only [waitForHeightProcessed, if_pos hgt]
  · intro hh h c n hle h0
    have hng : ¬ (h > hh) := by omega
    simp only [waitForHeightProcessed, if_neg hng, h0]
  · intro hh h c n hle h0 h1
    have hng : ¬ (h > hh) := by omega
    simp only [waitForHeightProcessed, if_neg hng, h0, h1]
  · intro hh h c n hle hall
    have hng : ¬ (h > hh) := by omega
    have h0 : c 0 = .ok false := hall 0 (by omega)
    have h1 : c 1 = .ok false := hall 1 (by omega)
    simp only [waitForHeightProcessed, if_neg hng, h0, h1]
    rw [waitLoop_all_false c n 2 0 (fun i hi1 hi2 => hall i (by omega))]
    simp [WaitResult.mk.injEq] <;> omega
  · intro hh h c n k hle hk hall htrue
    have hng : ¬ (h > hh) := by omega
    have h0 : c 0 = .ok false := hall 0 (by omega)
    have h1 : c 1 = .ok false := hall 1 (by omega)
    simp only [waitForHeightProcessed, if_neg hng, h0, h1]
    rw [waitLoop_first_true c n k 2 0 hk (fun i hi1 hi2 => hall i (by omega)) htrue]
    simp [WaitResult.mk.injEq] <;> omega

/-- Witness for C3: the race-window conjunct at a concrete trace whose
index advances between the first query and the subscription, with zero
notifications available. -/
theorem waitForHeightProcessed_spec_witness :
    waitForHeightProcessed 10 4 (fun k => .ok (k ≥ 1)) 0 = ⟨.done, true, 2, 0⟩ :=
  waitForHeightProcessed_spec.2.2.2.1 10 4 (fun k => .ok (k ≥ 1)) 0
    (by decide) (by decide) (by decide)

/-- Witness for C1 at a concrete event with one `"t1"` entry. -/
theorem ethLogFromEvent_spec_witness :
    ([List.replicate 32 5] : List (List Nat)).length =
      topicCount [⟨0, keyT1, rawCodec, List.replicate 32 5⟩] ∧
    ∀ i, i < ([List.replicate 32 5] : List (List Nat)).length →
      ∃ e ∈ [(⟨0, keyT1, rawCodec, List.replicate 32 5⟩ : EventEntry)],
        isTopicEntry e = true ∧ entrySlot e = i ∧ e.value.length = 32 ∧
        ([List.replicate 32 5] : List (List Nat)).getD i [] = e.value :=
  (ethLogFromEvent_spec [⟨0, keyT1, rawCodec, List.replicate 32 5⟩]).2
    [] [List.replicate 32 5] (by decide)

/-! ## C7: bad events are dropped silently -/

/-- C7: an event whose entry list fails the log decode is silently omitted
by `ethFilterLogsFromEvents` and `ethFilterResultFromEvents`: deleting it
from the input changes nothing, so its presence neither causes an error
nor contributes a result item. -/
theorem ethFilterLogsFromEvents_drops_bad (env : LogEnv)
    (xs ys : List CollectedEvent) (ev : CollectedEvent)
    (hbad : ethLogFromEvent ev.entries = none) :
    ethFilterLogsFromEvents env (xs ++ ev :: ys) =
      ethFilterLogsFromEvents env (xs ++ ys) ∧
    ethFilterResultFromEvents env (xs ++ ev :: ys) =
      ethFilterResultFromEvents env (xs ++ ys) := by
  have hlogs : ethFilterLogsFromEvents env (xs ++ ev :: ys) =
      ethFilterLogsFromEvents env (xs ++ ys) := by
    induction xs with
    | nil => simp only [List.nil_append, ethFilterLogsFromEvents, hbad]
    | cons x xs ih =>
      simp only [List.cons_append, ethFilterLogsFromEvents, List.append_eq, ih]
  refine ⟨hlogs, ?_⟩
  unfold ethFilterResultFromEvents
  rw [hlogs]

/-- Witness for C7 at a concrete environment and a concrete event whose
single entry has a non-raw codec. -/
theorem ethFilterLogsFromEvents_drops_bad_witness :
    ethFilterLogsFromEvents
        ⟨fun a => .ok a, fun c => .ok (c + 1), fun k => .ok k, fun c => .ok c⟩
        ([] ++ (⟨[⟨0, keyT1, 0x51, []⟩], 1, 0, false, 5, 2, 0, 3⟩ : CollectedEvent) :: []) =
      ethFilterLogsFromEvents
        ⟨fun a => .ok a, fun c => .ok (c + 1), fun k => .ok k, fun c => .ok c⟩
        ([] ++ []) ∧
    ethFilterResultFromEvents
        ⟨fun a => .ok a, fun c => .ok (c + 1), fun k => .ok k, fun c => .ok c⟩
        ([] ++ (⟨[⟨0, keyT1, 0x51, []⟩], 1, 0, false, 5, 2, 0, 3⟩ : CollectedEvent) :: []) =
      ethFilterResultFromEvents
        ⟨fun a => .ok a, fun c => .ok (c + 1), fun k => .ok k, fun c => .ok c⟩
        ([] ++ []) :=
  ethFilterLogsFromEvents_drops_bad _ [] []
    ⟨[⟨0, keyT1, 0x51, []⟩], 1, 0, false, 5, 2, 0, 3⟩ (by decide)

/-! ## C9: `ethGetEventsForFilter` height validation -/

/-- C9: with no block hash, an open-ended `maxHeight` of `-1` resolves to
the head height minus one before the index wait; the call errors when the
resolved height is negative or when an explicit height exceeds the head
height minus one, so a returned bound is always strictly below the head
and events of the heaviest tipset are never in range. -/
theorem ethGetEventsForFilterMaxHeight_spec :
    (∀ head : Int, ethGetEventsForFilterMaxHeight head (-1) =
      if head - 1 < 0 then .error .negativeHeight else .ok (head - 1)) ∧
    (∀ head mh : Int, mh ≠ -1 → mh < 0 →
      ethGetEventsForFilterMaxHeight head mh = .error .negativeHeight) ∧
    (∀ head mh : Int, 0 ≤ mh → head - 1 < mh →
      ethGetEventsForFilterMaxHeight head mh = .error .aboveHeaviest) ∧
    (∀ head mh : Int, 0 ≤ mh → mh ≤ head - 1 →
      ethGetEventsForFilterMaxHeight head mh = .ok mh) ∧
    (∀ head mh r : Int, ethGetEventsForFilterMaxHeight head mh = .ok r →
      r ≤ head - 1 ∧ r < head) := by
  refine ⟨?_, ?_, ?_, ?_, ?_⟩
  · intro head
    have hr : resolvedMaxHeight head (-1) = head - 1 := by
      unfold resolvedMaxHeight
      rw [if_pos rfl]
    unfold ethGetEventsForFilterMaxHeight
    rw [hr]
    by_cases h : head - 1 < 0
    · rw [if_pos h, if_pos h]
    · have hng : ¬ (head - 1 > head - 1) := by omega
      rw [if_neg h, if_neg hng, if_neg h]
  · intro head mh h1 h2
    have hr : resolvedMaxHeight head mh = mh := by
      unfold resolvedMaxHeight
      rw [if_neg h1]
    unfold ethGetEventsForFilterMaxHeight
    rw [hr, if_pos h2]
  · intro head mh h1 h2
    have hr : resolvedMaxHeight head mh = mh := by
      unfold resolvedMaxHeight
      rw [if_neg (by omega)]
    unfold ethGetEventsForFilterMaxHeight
    rw [hr, if_neg (by omega), if_pos (by omega)]
  · intro head mh h1 h2
    have hr : resolvedMaxHeight head mh = mh := by
      unfold resolvedMaxHeight
      rw [if_neg (by omega)]
    unfold ethGetEventsForFilterMaxHeight
    rw [hr, if_neg (by omega), if_neg (by omega)]
  · intro head mh r h
    unfold ethGetEventsForFilterMaxHeight resolvedMaxHeight at h
    split_ifs at h <;>
      first
        | (injection h with h; omega)
        | injection h

/-- Witness for C9: the open-ended bound at head height 10 resolves to 9. -/
theorem ethGetEventsForFilterMaxHeight_spec_witness :
    ethGetEventsForFilterMaxHeight 10 (-1) =
      if (10 : Int) - 1 < 0 then .error .negativeHeight else .ok (10 - 1) :=
  ethGetEventsForFilterMaxHeight_spec.1 10

/-! ## C10: not-found reported through the boolean -/

/-- C10: `EthUninstallFilter` of an identifier absent from the Filter
Store returns `(false, nil)` with the state untouched; `EthUnsubscribe`
returns `(false, nil)` whenever `StopSubscription` fails (it fails exactly
on unknown identifiers) and `(true, nil)` otherwise. -/
theorem ethUninstall_notFound_spec :
    (∀ st id, id ∉ st.storeFilters.map Prod.fst →
      EthUninstallFilter st id = (st, (false, none))) ∧
    (∀ st sid r, StopSubscription st sid = ((StopSubscription st sid).1, .error r) →
      EthUnsubscribe st sid = ((StopSubscription st sid).1, (false, none))) ∧
    (∀ st sid, sid ∉ st.subs → EthUnsubscribe st sid = (st, (false, none))) ∧
    (∀ st sid, sid ∈ st.subs → (EthUnsubscribe st sid).2 = (true, none)) := by
  refine ⟨?_, ?_, ?_, ?_⟩
  · intro st id hni
    have hfind : st.storeFilters.find? (fun f => f.1 == id) = none := by
      rw [List.find?_eq_none]
      intro x hx
      simp only [beq_iff_eq]
      intro heq
      exact hni (heq ▸ List.mem_map_of_mem Prod.fst hx)
    have hget : storeGet st id = none := by
      unfold storeGet
      rw [hfind]
      rfl
    unfold EthUninstallFilter
    rw [hget]
  · intro st sid r hstop
    unfold EthUnsubscribe
    rw [hstop]
  · intro st sid hns
    have hstop : StopSubscription st sid = (st, .error ()) := by
      unfold StopSubscription
      rw [if_neg hns]
    unfold EthUnsubscribe
    rw [hstop]
  · intro st sid hs
    have hstop : StopSubscription st sid =
        ((st.subAttached sid).foldl (fun s fk => uninstallFilter s fk.1 fk.2)
            { st with subs := st.subs.filter (fun j => j != sid) },
          .ok ()) := by
      unfold StopSubscription
      rw [if_pos hs]
    unfold EthUnsubscribe
    rw [hstop]

/-- Witness for C10: uninstalling from an empty store and unsubscribing an
unknown and a known subscription identifier. -/
theorem ethUninstall_notFound_spec_witness :
    EthUninstallFilter ⟨0, 0, 100, [], [], [], [], [], fun _ => []⟩ 3 =
      (⟨0, 0, 100, [], [], [], [], [], fun _ => []⟩, (false, none)) ∧
    EthUnsubscribe ⟨0, 1, 100, [], [], [], [], [0], fun _ => []⟩ 7 =
      (⟨0, 1, 100, [], [], [], [], [0], fun _ => []⟩, (false, none)) ∧
    (EthUnsubscribe ⟨0, 1, 100, [], [], [], [], [0], fun _ => []⟩ 0).2 = (true, none) :=
  ⟨ethUninstall_notFound_spec.1 _ 3 (by decide),
   ethUninstall_notFound_spec.2.2.1 _ 7 (by decide),
   ethUninstall_notFound_spec.2.2.2 _ 0 (by decide)⟩

/-! ## C6: the `newHeads` ingest step -/

/-- C6 counterexample: a notification at height 1 whose parent is the
height-0 (genesis) tipset does produce a block record — the code only
skips when the notified tipset itself is at height 0, not when its parent
is — refuting "sends no record when the parent is at height 0". -/
theorem tipSetIngestStep_counterexample :
    tipSetIngestStep ⟨none, []⟩ ⟨1, 5⟩
        (fun k => if k = 5 then some ⟨0, 9⟩ else none) (fun _ => some 7) =
      ⟨some 5, [7]⟩ ∧
    (fun k => if k = 5 then some (⟨0, 9⟩ : ModelTipSet) else none) 5 = some ⟨0, 9⟩ := by
  constructor <;> decide

/-- C6 amended: the ingest stage acts only on the parent of the notified
head; it sends nothing when the notified tipset itself is at height 0 or
when the parent key equals the last-sent key; otherwise, when the parent
loads and the block record composes, it sends exactly one record and
records the parent key, so two consecutive notifications with the same
parent key deliver exactly one record. -/
theorem tipSetIngestStep_spec :
    (∀ st ts load mk, ts.height = 0 → tipSetIngestStep st ts load mk = st) ∧
    (∀ st ts load mk, st.lastSentTipset = some ts.parents →
      tipSetIngestStep st ts load mk = st) ∧
    (∀ st ts load mk p b, ts.height ≠ 0 → st.lastSentTipset ≠ some ts.parents →
      load ts.parents = some p → mk p = some b →
      tipSetIngestStep st ts load mk = ⟨some ts.parents, st.sent ++ [b]⟩) ∧
    (∀ st ts1 ts2 load mk p b, ts1.height ≠ 0 →
      st.lastSentTipset ≠ some ts1.parents → ts2.parents = ts1.parents →
      load ts1.parents = some p → mk p = some b →
      tipSetIngestStep (tipSetIngestStep st ts1 load mk) ts2 load mk =
        ⟨some ts1.parents, st.sent ++ [b]⟩) := by
  have hsend : ∀ (st : IngestState) ts load mk p b, ts.height ≠ 0 →
      st.lastSentTipset ≠ some ts.parents →
      load ts.parents = some p → mk p = some b →
      tipSetIngestStep st ts load mk = ⟨some ts.parents, st.sent ++ [b]⟩ := by
    intro st ts load mk p b h0 hlast hload hmk
    unfold tipSetIngestStep
    rw [if_neg h0, if_neg hlast]
    simp only [hload, hmk]
  refine ⟨?_, ?_, hsend, ?_⟩
  · intro st ts load mk h0
    unfold tipSetIngestStep
    rw [if_pos h0]
  · intro st ts load mk hlast
    unfold tipSetIngestStep
    by_cases h0 : ts.height = 0
    · rw [if_pos h0]
    · rw [if_neg h0, if_pos hlast]
  · intro st ts1 ts2 load mk p b h0 hlast hpar hload hmk
    rw [hsend st ts1 load mk p b h0 hlast hload hmk]
    unfold tipSetIngestStep
    by_cases h2 : ts2.height = 0
    · rw [if_pos h2]
    · rw [if_neg h2, if_pos (by rw [hpar])]

/-- Witness for C6 at a concrete dedup pair: two notifications with the
same parent key deliver one record. -/
theorem tipSetIngestStep_spec_witness :
    tipSetIngestStep (tipSetIngestStep ⟨none, []⟩ ⟨3, 5⟩
        (fun _ => some ⟨2, 9⟩) (fun _ => some 7)) ⟨4, 5⟩
        (fun _ => some ⟨2, 9⟩) (fun _ => some 7) =
      ⟨some 5, [] ++ [7]⟩ :=
  tipSetIngestStep_spec.2.2.2 ⟨none, []⟩ ⟨3, 5⟩ ⟨4, 5⟩
    (fun _ => some ⟨2, 9⟩) (fun _ => some 7) ⟨2, 9⟩ 7
    (by decide) (by decide) rfl rfl rfl

/-! ## C5: the send-queue hard cap -/

/-- C5 counterexample: on a terminated subscription, a further `send` is
not a no-op — the payload is still appended to the dead queue and the
counter bumped, because `send` has no terminated-check. -/
theorem ethSubscriptionSend_counterexample :
    ethSubscriptionSend ⟨false, [], 0, [], [], false⟩ 7 true =
      ⟨false, [7], 1, [], [], true⟩ ∧
    ethSubscriptionSend ⟨false, [], 0, [], [], false⟩ 7 true ≠
      ⟨false, [], 0, [], [], false⟩ := by
  constructor <;> decide

/-- C5 amended: an enqueue that takes the counter above the 20000 cap
tears the subscription down — stages cancelled and its filters
uninstalled — with the triggering payload still enqueued rather than
dropped; after termination further sends never reactivate the
subscription, uninstall nothing further and `stop` stays a no-op, but each
send still appends its payload to the defunct queue, so it is not a strict
no-op. -/
theorem ethSubscriptionSend_spec :
    maxSendQueue = 20000 ∧
    (∀ st p, st.active = true → st.sendQueueLen + 1 > maxSendQueue →
      ethSubscriptionSend st p true =
        { st with
            active := false
            toSend := st.toSend ++ [p]
            sendQueueLen := st.sendQueueLen + 1
            installedFilters :=
              st.installedFilters.filter (fun i => !(st.filters.contains i)) }) ∧
    (∀ st p, st.active = false →
      (ethSubscriptionSend st p true).active = false ∧
      (ethSubscriptionSend st p true).installedFilters = st.installedFilters ∧
      (ethSubscriptionSend st p true).filters = st.filters ∧
      (ethSubscriptionSend st p true).toSend = st.toSend ++ [p]) ∧
    (∀ st, st.active = false → ethSubscriptionStop st = st) := by
  refine ⟨rfl, ?_, ?_, ?_⟩
  · intro st p hact hcap
    unfold ethSubscriptionSend
    rw [if_neg (by simp), if_pos hcap]
    unfold ethSubscriptionStop
    rw [if_pos hact]
  · intro st p hact
    unfold ethSubscriptionSend
    rw [if_neg (by simp)]
    by_cases hcap : st.sendQueueLen + 1 > maxSendQueue
    · rw [if_pos hcap]
      unfold ethSubscriptionStop
      rw [if_neg (by simp [hact])]
      exact ⟨hact, rfl, rfl, rfl⟩
    · rw [if_neg hcap]
      exact ⟨hact, rfl, rfl, rfl⟩
  · intro st hact
    unfold ethSubscriptionStop
    rw [if_neg (by simp [hact])]

/-- Witness for C5: the teardown conjunct at a live subscription whose
counter sits exactly at the cap, and a post-termination send. -/
theorem ethSubscriptionSend_spec_witness :
    ethSubscriptionSend ⟨true, [], 20000, [4], [4, 9], false⟩ 7 true =
      ⟨false, [] ++ [7], 20001, [4], [9], false⟩ ∧
    (ethSubscriptionSend ⟨false, [], 0, [], [], false⟩ 8 true).active = false :=
  ⟨by
    rw [ethSubscriptionSend_spec.2.1 ⟨true, [], 20000, [4], [4, 9], false⟩ 7 rfl
      (by decide)]
    decide,
   (ethSubscriptionSend_spec.2.2.1 ⟨false, [], 0, [], [], false⟩ 8 rfl).1⟩

/-! ## C8: install/uninstall round trip -/

theorem find?_append_of_none {α : Type} {p : α → Bool} {l₁ l₂ : List α}
    (h : ∀ x ∈ l₁, p x = false) : (l₁ ++ l₂).find? p = l₂.find? p := by
  induction l₁ with
  | nil => rfl
  | cons a l ih =>
    rw [List.cons_append,
      List.find?_cons_of_neg _ (by simp [h a (List.mem_cons_self a l)]),
      ih (fun x hx => h x (List.mem_cons_of_mem a hx))]

theorem ethNewFilter_ok_elim {st st1 : EvState} {fid : Nat}
    (h : ethNewFilter st true true = (st1, .ok fid)) :
    fid = st.nextFilterId ∧
    st1 = { st with
      nextFilterId := st.nextFilterId + 1
      eventFilters := st.eventFilters ++ [st.nextFilterId]
      storeFilters := st.storeFilters ++ [(st.nextFilterId, FilterKind.event)] } := by
  unfold ethNewFilter at h
  rw [if_neg (by decide)] at h
  simp only [managerInstall] at h
  unfold storeAdd at h
  split_ifs at h with hC
  · exact absurd h (by simp)
  · simp only [Prod.mk.injEq, Except.ok.injEq] at h
    exact ⟨h.2.symm, h.1.symm⟩

/-- C8: a successful `EthNewFilter` immediately followed by
`EthUninstallFilter` of the returned identifier reports `(true, nil)` and
restores both the Filter Store and the event filter manager to their
pre-install contents — in particular the store size is unchanged by the
round trip. -/
theorem ethNewFilter_uninstall_roundtrip (st st1 : EvState) (fid : Nat)
    (hwf : evWF st) (h : ethNewFilter st true true = (st1, .ok fid)) :
    (EthUninstallFilter st1 fid).2 = (true, none) ∧
    (EthUninstallFilter st1 fid).1.storeFilters = st.storeFilters ∧
    (EthUninstallFilter st1 fid).1.eventFilters = st.eventFilters ∧
    (EthUninstallFilter st1 fid).1.storeFilters.length = st.storeFilters.length := by
  obtain ⟨rfl, rfl⟩ := ethNewFilter_ok_elim h
  have hstoreK : ∀ x ∈ st.storeFilters, ((fun f : Nat × FilterKind =>
      f.1 == st.nextFilterId) x) = false := by
    intro x hx
    have := hwf.1 x hx
    simp only [beq_eq_false_iff_ne, ne_eq]
    omega
  have hget : storeGet
      { st with
          nextFilterId := st.nextFilterId + 1
          eventFilters := st.eventFilters ++ [st.nextFilterId]
          storeFilters := st.storeFilters ++ [(st.nextFilterId, FilterKind.event)] }
      st.nextFilterId = some .event := by
    unfold storeGet
    rw [show ({ st with
          nextFilterId := st.nextFilterId + 1
          eventFilters := st.eventFilters ++ [st.nextFilterId]
          storeFilters := st.storeFilters ++ [(st.nextFilterId, FilterKind.event)]
        } : EvState).storeFilters =
        st.storeFilters ++ [(st.nextFilterId, FilterKind.event)] from rfl]
    rw [find?_append_of_none hstoreK,
      List.find?_cons_of_pos _ (by simp)]
    rfl
  have hstoreR : (st.storeFilters ++ [(st.nextFilterId, FilterKind.event)]).filter
      (fun f => f.1 != st.nextFilterId) = st.storeFilters := by
    rw [List.filter_append]
    have h1 : List.filter (fun f : Nat × FilterKind => f.1 != st.nextFilterId)
        [(st.nextFilterId, FilterKind.event)] = [] := by simp
    rw [h1, List.append_nil]
    refine List.filter_eq_self.2 (fun x hx => ?_)
    have := hwf.1 x hx
    simp only [bne_iff_ne, ne_eq]
    omega
  have heventR : (st.eventFilters ++ [st.nextFilterId]).filter
      (fun i => i != st.nextFilterId) = st.eventFilters := by
    rw [List.filter_append]
    have h1 : List.filter (fun i : Nat => i != st.nextFilterId)
        [st.nextFilterId] = [] := by simp
    rw [h1, List.append_nil]
    refine List.filter_eq_self.2 (fun x hx => ?_)
    have := hwf.2.1 x hx
    simp only [bne_iff_ne, ne_eq]
    omega
  unfold EthUninstallFilter
  simp only [hget]
  unfold uninstallFilter storeRemove managerRemove
  refine ⟨by trivial, ?_, ?_, ?_⟩
  · exact hstoreR
  · exact heventR
  · show ((st.storeFilters ++ [(st.nextFilterId, FilterKind.event)]).filter
      (fun f => f.1 != st.nextFilterId)).length = st.storeFilters.length
    rw [hstoreR]

/-- Witness for C8: round trip on an empty store. -/
theorem ethNewFilter_uninstall_roundtrip_witness :
    (EthUninstallFilter ⟨1, 0, 100, [(0, .event)], [0], [], [], [], fun _ => []⟩ 0).2 =
      (true, none) ∧
    (EthUninstallFilter ⟨1, 0, 100, [(0, .event)], [0], [], [], [], fun _ => []⟩ 0).1.storeFilters =
      (⟨0, 0, 100, [], [], [], [], [], fun _ => []⟩ : EvState).storeFilters ∧
    (EthUninstallFilter ⟨1, 0, 100, [(0, .event)], [0], [], [], [], fun _ => []⟩ 0).1.eventFilters =
      (⟨0, 0, 100, [], [], [], [], [], fun _ => []⟩ : EvState).eventFilters ∧
    (EthUninstallFilter ⟨1, 0, 100, [(0, .event)], [0], [], [], [], fun _ => []⟩ 0).1.storeFilters.length =
      (⟨0, 0, 100, [], [], [], [], [], fun _ => []⟩ : EvState).storeFilters.length :=
  ethNewFilter_uninstall_roundtrip ⟨0, 0, 100, [], [], [], [], [], fun _ => []⟩
    ⟨1, 0, 100, [(0, .event)], [0], [], [], [], fun _ => []⟩ 0
    ⟨by decide, by decide, by decide, by decide, by decide⟩ rfl

/-! ## C4: EthSubscribe error-path cleanup -/

/-- C4 counterexample: an unsupported event type, and an
address-conversion failure on a `logs` subscription, both return an error
while the freshly registered subscription stays in the registry —
refuting the claim that every post-registration error removes it. -/
theorem ethSubscribe_counterexample :
    (ethSubscribe ⟨0, 0, 100, [], [], [], [], [], fun _ => []⟩ "bogus" true true true).2 =
      .error .unsupportedType ∧
    0 ∈ (ethSubscribe ⟨0, 0, 100, [], [], [], [], [], fun _ => []⟩ "bogus" true true true).1.subs ∧
    (ethSubscribe ⟨0, 0, 100, [], [], [], [], [], fun _ => []⟩ "logs" true false true).2 =
      .error .invalidAddress ∧
    0 ∈ (ethSubscribe ⟨0, 0, 100, [], [], [], [], [], fun _ => []⟩ "logs" true false true).1.subs := by
  refine ⟨?_, ?_, ?_, ?_⟩ <;> decide

theorem stopSubscription_fresh (st : EvState)
    (hwf : ∀ j ∈ st.subs, j < st.nextSubId) :
    StopSubscription
      { st with
          nextSubId := st.nextSubId + 1
          subs := st.subs ++ [st.nextSubId]
          subAttached := fun j => if j = st.nextSubId then [] else st.subAttached j }
      st.nextSubId =
      ({ st with
          nextSubId := st.nextSubId + 1
          subAttached := fun j => if j = st.nextSubId then [] else st.subAttached j },
        .ok ()) := by
  have hsubs : (st.subs ++ [st.nextSubId]).filter (fun j => j != st.nextSubId) =
      st.subs := by
    rw [List.filter_append]
    have h1 : List.filter (fun j : Nat => j != st.nextSubId) [st.nextSubId] = [] := by
      simp
    rw [h1, List.append_nil]
    refine List.filter_eq_self.2 (fun x hx => ?_)
    have := hwf x hx
    simp only [bne_iff_ne, ne_eq]
    omega
  unfold StopSubscription
  split_ifs with hmem
  · rw [show ({ st with
        nextSubId := st.nextSubId + 1
        subs := st.subs ++ [st.nextSubId]
        subAttached := fun j => if j = st.nextSubId then [] else st.subAttached j
      } : EvState).subAttached st.nextSubId = [] from by simp]
    rw [List.foldl_nil]
    rw [show ({ st with
        nextSubId := st.nextSubId + 1
        subs := st.subs ++ [st.nextSubId]
        subAttached := fun j => if j = st.nextSubId then [] else st.subAttached j
      } : EvState).subs.filter (fun j => j != st.nextSubId) = st.subs from hsubs]
  · exact absurd (List.mem_append_right _ (List.mem_singleton_self _)) hmem

/-- C4 amended: `EthSubscribe` errors caused by a topic-parse failure or a
filter-install failure remove the subscription from the registry and leave
every manager and the Filter Store exactly as before the call (the
attached-filter set was empty, so zero filters remain installed); an
address-conversion failure or an unsupported event type returns its error
with no filter ever installed but with the subscription still registered. -/
theorem ethSubscribe_cleanup_spec (st : EvState)
    (hwf : ∀ j ∈ st.subs, j < st.nextSubId) :
    (∀ t a, ethSubscribe st "newHeads" t a false =
      ({ st with
          nextSubId := st.nextSubId + 1
          subAttached := fun j => if j = st.nextSubId then [] else st.subAttached j },
        .error .installFailed)) ∧
    (∀ a i, ethSubscribe st "logs" false a i =
      ({ st with
          nextSubId := st.nextSubId + 1
          subAttached := fun j => if j = st.nextSubId then [] else st.subAttached j },
        .error .topicParse)) ∧
    (∀ i, ethSubscribe st "logs" true false i =
      ({ st with
          nextSubId := st.nextSubId + 1
          subs := st.subs ++ [st.nextSubId]
          subAttached := fun j => if j = st.nextSubId then [] else st.subAttached j },
        .error .invalidAddress)) ∧
    (ethSubscribe st "logs" true true false =
      ({ st with
          nextSubId := st.nextSubId + 1
          subAttached := fun j => if j = st.nextSubId then [] else st.subAttached j },
        .error .installFailed)) ∧
    (∀ t a, ethSubscribe st "newPendingTransactions" t a false =
      ({ st with
          nextSubId := st.nextSubId + 1
          subAttached := fun j => if j = st.nextSubId then [] else st.subAttached j },
        .error .installFailed)) ∧
    (∀ s t a i, s ≠ "newHeads" → s ≠ "logs" → s ≠ "newPendingTransactions" →
      ethSubscribe st s t a i =
      ({ st with
          nextSubId := st.nextSubId + 1
          subs := st.subs ++ [st.nextSubId]
          subAttached := fun j => if j = st.nextSubId then [] else st.subAttached j },
        .error .unsupportedType)) := by
  have hstop := stopSubscription_fresh st hwf
  have hunsub : (EthUnsubscribe
      { st with
          nextSubId := st.nextSubId + 1
          subs := st.subs ++ [st.nextSubId]
          subAttached := fun j => if j = st.nextSubId then [] else st.subAttached j }
      st.nextSubId).1 =
      { st with
          nextSubId := st.nextSubId + 1
          subAttached := fun j => if j = st.nextSubId then [] else st.subAttached j } := by
    unfold EthUnsubscribe
    simp only [hstop]
  refine ⟨?_, ?_, ?_, ?_, ?_, ?_⟩
  · intro t a
    simp [ethSubscribe, startSubscription, hunsub]
  · intro a i
    simp [ethSubscribe, startSubscription, hunsub]
  · intro i
    simp [ethSubscribe, startSubscription]
  · simp [ethSubscribe, startSubscription, hunsub]
  · intro t a
    simp [ethSubscribe, startSubscription, hunsub]
  · intro s t a i h1 h2 h3
    simp [ethSubscribe, startSubscription, h1, h2, h3]

/-- Witness for C4 at a concrete empty state: a failing `newHeads` install
deregisters the fresh subscription. -/
theorem ethSubscribe_cleanup_spec_witness :
    ethSubscribe ⟨0, 0, 100, [], [], [], [], [], fun _ => []⟩ "newHeads" true true false =
      ({ (⟨0, 0, 100, [], [], [], [], [], fun _ => []⟩ : EvState) with
          nextSubId := 0 + 1
          subAttached := fun j => if j = 0 then []
            else (⟨0, 0, 100, [], [], [], [], [], fun _ => []⟩ : EvState).subAttached j },
        .error .installFailed) :=
  (ethSubscribe_cleanup_spec ⟨0, 0, 100, [], [], [], [], [], fun _ => []⟩
    (by decide)).1 true true

end VenusEth

